import Mathlib

/-!
Verification of the delivery-tour solver (chicken-delivery TSP variant).

Shallow embedding conventions:
* Python floats are modelled as exact rationals (ℚ); `float('inf')` is the top
  element of `WithTop ℚ`.
* Python ints (site indices) are modelled as ℤ; a tour is a `List ℤ`.
* Fallible Python code (exceptions such as ValueError / IndexError /
  ZeroDivisionError, and non-termination of a `while` loop) is modelled with
  `Except ErrPy`.
* The module-global random generator is modelled as an abstract stream of
  naturals (`Alea`); each primitive of the `random` module consumes entries of
  the stream and is specified only up to the ranges it guarantees.
-/

set_option maxHeartbeats 1000000
set_option linter.unusedVariables false

/-- Python runtime exceptions that the embedded code can raise. `boucleInfinie`
stands for a `while` loop of the source that would not terminate. -/
inductive ErrPy where
  | valueError : ErrPy
  | indexError : ErrPy
  | zeroDivisionError : ErrPy
  | typeError : ErrPy
  | boucleInfinie : ErrPy
  deriving DecidableEq, Repr

/-- The evaluator's failure messages.  The Python source builds f-strings; we
model each distinct message template as a constructor carrying the data that
the template interpolates, which keeps the "reason" machine-inspectable. -/
inductive MsgErreur where
  | aucune : MsgErreur
  | pasDepot : MsgErreur
  | siteRepete : MsgErreur
  | sitesManquants : ℤ → ℤ → MsgErreur
  | panneSeche : ℤ → ℤ → MsgErreur
  | retourImpossible : ℤ → MsgErreur
  deriving DecidableEq, Repr

/-- Classifies a failure message: `true` for the three wrong-site-set checks
(the rejections performed before the simulation starts), `false` for the
fuel/feasibility failures and for the empty success message. -/
def MsgErreur.estProblemeSites : MsgErreur → Bool
  | .pasDepot => true
  | .siteRepete => true
  | .sitesManquants _ _ => true
  | _ => false

/-- Result triple of `calculer_cout_tournee`: (cout_total, est_valide, message). -/
structure EvalRes where
  cout : WithTop ℚ
  valide : Bool
  msg : MsgErreur
  deriving DecidableEq, Repr

/-- The delivery truck (class `Camion` of index.py). -/
structure Camion where
  poids_vide : ℚ
  charge_max : ℚ
  capacite_reservoir : ℚ
  deriving DecidableEq, Repr

/-- `poids_plein = poids_vide + charge_max` (set in `Camion.__init__`). -/
def Camion.poids_plein (c : Camion) : ℚ := c.poids_vide + c.charge_max

/-- `poids_actuel(charge_restante) = poids_vide + charge_restante`. -/
def Camion.poids_actuel (c : Camion) (charge_restante : ℚ) : ℚ :=
  c.poids_vide + charge_restante

/-- A numpy ndarray of rationals, reduced to what the source consumes:
its shape and a total entry function (entries outside the shape are
irrelevant; access goes through the bounds-checked `npIdx`). -/
structure NDArray where
  shape : List ℕ
  data : ℕ → ℕ → ℚ

/-- The delivery network (class `GrapheLivraison` of index.py); the fields are
exactly the attributes that the cost model and the solvers read. -/
structure GrapheLivraison where
  camion : Camion
  quantite_par_site : ℚ
  depot : ℤ
  n_total : ℕ
  n_sites : ℤ
  distances_base : ℕ → ℕ → ℚ
  facteurs_embouteillage : ℕ → ℕ → ℚ
  distances_ajustees : ℕ → ℕ → ℚ

/-- numpy integer indexing into an axis of length `n`: indices in `[0, n)` are
taken as is, indices in `[-n, 0)` count from the end, anything else raises
IndexError. -/
def npIdx (n : ℕ) (i : ℤ) : Except ErrPy ℕ :=
  if 0 ≤ i ∧ i < (n : ℤ) then .ok i.toNat
  else if -(n : ℤ) ≤ i ∧ i < 0 then .ok (i + (n : ℤ)).toNat
  else .error .indexError

/-- `distance_ajustee(site_i, site_j) = self.distances_ajustees[site_i, site_j]`
(index.py).  The lookup inherits numpy's indexing semantics via `npIdx`. -/
def GrapheLivraison.distance_ajustee (g : GrapheLivraison) (site_i site_j : ℤ) :
    Except ErrPy ℚ :=
  match npIdx g.n_total site_i with
  | .error e => .error e
  | .ok i =>
    match npIdx g.n_total site_j with
    | .error e => .error e
    | .ok j => .ok (g.distances_ajustees i j)

/-- `consommation_carburant(distance, poids) = (distance/100) * (20 + 0.005*poids)`
(index.py, coef_base = 20 L/100km, coef_poids = 0.005 L/100km per kg). -/
def GrapheLivraison.consommation_carburant (g : GrapheLivraison)
    (distance poids_camion : ℚ) : ℚ :=
  (distance / 100) * (20 + (5 / 1000) * poids_camion)

/-- `peut_revenir_au_depot(site, carburant, charge)`: fuel for the direct leg
back to the depot at the weight implied by the remaining load, compared with
the remaining fuel (index.py). -/
def GrapheLivraison.peut_revenir_au_depot (g : GrapheLivraison) (site_actuel : ℤ)
    (carburant_restant charge_restante : ℚ) : Except ErrPy Bool :=
  match g.distance_ajustee site_actuel g.depot with
  | .error e => .error e
  | .ok distance_retour =>
    .ok (decide (carburant_restant ≥
      g.consommation_carburant distance_retour (g.camion.poids_actuel charge_restante)))

/-- Ephemeral simulation state of one evaluator pass:
(carburant_restant, charge_restante, cout_total). -/
abbrev Etat := ℚ × ℚ × ℚ

namespace SolveurTSP

/-- One iteration of the simulation loop of `calculer_cout_tournee`
(tsp_solver.py): travel one leg, and on arrival at a non-depot site deliver
and re-check the return-to-depot constraint.  `.inl` is the updated state,
`.inr` a terminal failure result. -/
def simulerEtape (g : GrapheLivraison) (etat : Etat) (tron : ℤ × ℤ) :
    Except ErrPy (Etat ⊕ EvalRes) :=
  match g.distance_ajustee tron.1 tron.2 with
  | .error e => .error e
  | .ok distance =>
    if g.consommation_carburant distance (g.camion.poids_actuel etat.2.1) > etat.1 then
      .ok (.inr ⟨⊤, false, .panneSeche tron.1 tron.2⟩)
    else if tron.2 ≠ 0 then
      match g.peut_revenir_au_depot tron.2
          (etat.1 - g.consommation_carburant distance (g.camion.poids_actuel etat.2.1))
          (etat.2.1 - g.quantite_par_site) with
      | .error e => .error e
      | .ok pr =>
        if pr then
          .ok (.inl
            (etat.1 - g.consommation_carburant distance (g.camion.poids_actuel etat.2.1),
             etat.2.1 - g.quantite_par_site,
             etat.2.2 + g.consommation_carburant distance (g.camion.poids_actuel etat.2.1)))
        else .ok (.inr ⟨⊤, false, .retourImpossible tron.2⟩)
    else
      .ok (.inl
        (etat.1 - g.consommation_carburant distance (g.camion.poids_actuel etat.2.1),
         etat.2.1,
         etat.2.2 + g.consommation_carburant distance (g.camion.poids_actuel etat.2.1)))

/-- The simulation loop over the consecutive legs of the tour. -/
def simulerTroncons (g : GrapheLivraison) :
    List (ℤ × ℤ) → Etat → Except ErrPy (Etat ⊕ EvalRes)
  | [], etat => .ok (.inl etat)
  | tron :: rest, etat =>
    match simulerEtape g etat tron with
    | .error e => .error e
    | .ok (.inl etat2) => simulerTroncons g rest etat2
    | .ok (.inr res) => .ok (.inr res)

/-- The consecutive pairs `(tournee[i], tournee[i+1])` of a tour. -/
def troncons (tournee : List ℤ) : List (ℤ × ℤ) := tournee.zip tournee.tail

/-- `calculer_cout_tournee` (tsp_solver.py): the three wrong-site-set checks,
then the leg-by-leg fuel simulation.  `tournee[0]` on an empty list raises
IndexError in Python, hence the `.error` on `[]`. -/
def calculer_cout_tournee (g : GrapheLivraison) (tournee : List ℤ) :
    Except ErrPy EvalRes :=
  if tournee.isEmpty then .error .indexError
  else if tournee.head? ≠ some 0 ∨ tournee.getLast? ≠ some 0 then
    .ok ⟨⊤, false, .pasDepot⟩
  else if ¬ ((tournee.drop 1).dropLast).Nodup then
    .ok ⟨⊤, false, .siteRepete⟩
  else if (tournee.length : ℤ) - 2 ≠ g.n_sites then
    .ok ⟨⊤, false, .sitesManquants g.n_sites ((tournee.length : ℤ) - 2)⟩
  else
    match simulerTroncons g (troncons tournee)
        (g.camion.capacite_reservoir, (g.n_sites : ℚ) * g.quantite_par_site, 0) with
    | .error e => .error e
    | .ok (.inl etat) => .ok ⟨(etat.2.2 : ℚ), true, .aucune⟩
    | .ok (.inr res) => .ok res

/-- `list(range(1, self.graphe.n_total))`: the delivery sites
[1, ..., n_total - 1]. -/
def sites_a_visiter (g : GrapheLivraison) : List ℤ :=
  (List.range' 1 (g.n_total - 1)).map (fun k : ℕ => (k : ℤ))

/-- The enumeration loop of `force_brute`: keep the cheapest valid tour seen
so far.  (The iteration order of `itertools.permutations` differs from
`List.permutations`, which can only change which of several equally cheap
tours is retained; the spec documents that tie-break as unspecified.) -/
def forceBruteBoucle (g : GrapheLivraison) :
    List (List ℤ) → Option (List ℤ) × WithTop ℚ →
    Except ErrPy (Option (List ℤ) × WithTop ℚ)
  | [], acc => .ok acc
  | p :: rest, acc =>
    match calculer_cout_tournee g (0 :: p ++ [0]) with
    | .error e => .error e
    | .ok r =>
      if r.valide ∧ r.cout < acc.2 then
        forceBruteBoucle g rest (some (0 :: p ++ [0]), r.cout)
      else forceBruteBoucle g rest acc

/-- `force_brute` (tsp_solver.py): refuse instances with more than 10 sites,
otherwise enumerate every permutation of the delivery sites. -/
def force_brute (g : GrapheLivraison) :
    Except ErrPy (Option (List ℤ) × WithTop ℚ) :=
  if g.n_sites > 10 then .error .valueError
  else forceBruteBoucle g (sites_a_visiter g).permutations (none, ⊤)

/-- The inner candidate scan of `glouton_plus_proche`: among the remaining
sites keep the closest one that is reachable and from which the truck can
still return to the depot after delivering. -/
def choisirSite (g : GrapheLivraison) (site_actuel : ℤ) (carburant charge : ℚ) :
    List ℤ → Option (ℤ × ℚ) → Except ErrPy (Option (ℤ × ℚ))
  | [], meilleur => .ok meilleur
  | site :: rest, meilleur =>
    match g.distance_ajustee site_actuel site with
    | .error e => .error e
    | .ok distance =>
      if g.consommation_carburant distance (g.camion.poids_actuel charge) ≤ carburant then
        match g.peut_revenir_au_depot site
            (carburant - g.consommation_carburant distance (g.camion.poids_actuel charge))
            (charge - g.quantite_par_site) with
        | .error e => .error e
        | .ok pr =>
          if pr then
            match meilleur with
            | none => choisirSite g site_actuel carburant charge rest (some (site, distance))
            | some md =>
              if distance < md.2 then
                choisirSite g site_actuel carburant charge rest (some (site, distance))
              else choisirSite g site_actuel carburant charge rest meilleur
          else choisirSite g site_actuel carburant charge rest meilleur
      else choisirSite g site_actuel carburant charge rest meilleur

/-- The `while sites_restants:` loop of `glouton_plus_proche`.  `fuel` bounds
the number of iterations; every iteration removes the chosen site from
`restants`, so `fuel = restants.length` suffices and the `.error .boucleInfinie`
branch is unreachable. -/
def gloutonBoucle (g : GrapheLivraison) :
    ℕ → List ℤ → List ℤ → ℚ → ℚ → Except ErrPy (Option (List ℤ) × WithTop ℚ)
  | _, tournee, [], _, _ =>
    match calculer_cout_tournee g (tournee ++ [0]) with
    | .error e => .error e
    | .ok r => .ok (some (tournee ++ [0]), r.cout)
  | 0, _, _ :: _, _, _ => .error .boucleInfinie
  | fuel + 1, tournee, restants@(_ :: _), carburant, charge =>
    match choisirSite g ((tournee.getLast?).getD 0) carburant charge restants none with
    | .error e => .error e
    | .ok none => .ok (none, ⊤)
    | .ok (some sd) =>
      gloutonBoucle g fuel (tournee ++ [sd.1]) (restants.erase sd.1)
        (carburant - g.consommation_carburant sd.2 (g.camion.poids_actuel charge))
        (charge - g.quantite_par_site)

/-- `glouton_plus_proche` (tsp_solver.py).  Its returned cost is by
construction the evaluator's cost of the constructed tour (the source ends
with `cout, valide, msg = self.calculer_cout_tournee(tournee)` and returns
that `cout`).  Iterating the Lean list `sites_a_visiter` replaces iterating
a Python `set`, which can only change the implementation-defined tie-break
between equally distant candidates. -/
def glouton_plus_proche (g : GrapheLivraison) :
    Except ErrPy (Option (List ℤ) × WithTop ℚ) :=
  gloutonBoucle g (sites_a_visiter g).length [0] (sites_a_visiter g)
    g.camion.capacite_reservoir ((g.n_sites : ℚ) * g.quantite_par_site)

end SolveurTSP

/-- Abstract state of the module-global random generator: a stream of
naturals and a read position. -/
structure Alea where
  flux : ℕ → ℕ
  pos : ℕ

/-- Read one entry of the stream. -/
def Alea.next (a : Alea) : ℕ × Alea := (a.flux a.pos, ⟨a.flux, a.pos + 1⟩)

/-- Computations that consume randomness and may raise a Python exception:
state passing of `Alea` combined with `Except ErrPy`.  The random state is
preserved across a raised exception so that `try/except` can resume. -/
def MR (α : Type) : Type := Alea → Except ErrPy α × Alea

instance : Monad MR where
  pure x := fun a => (.ok x, a)
  bind m f := fun a =>
    match m a with
    | (.ok x, a2) => f x a2
    | (.error e, a2) => (.error e, a2)

/-- Raise a Python exception. -/
def MR.lever {α : Type} (e : ErrPy) : MR α := fun a => (.error e, a)

/-- Run a deterministic fallible computation inside `MR`. -/
def MR.deExcept {α : Type} (r : Except ErrPy α) : MR α := fun a => (r, a)

/-- Python `try: m except: secours`, catching every exception. -/
def MR.attraper {α : Type} (m : MR α) (secours : MR α) : MR α := fun a =>
  match m a with
  | (.ok x, a2) => (.ok x, a2)
  | (.error _, a2) => secours a2

/-- Draw the next raw value of the stream. -/
def MR.suivant : MR ℕ := fun a => ((Except.ok (a.next).1 : Except ErrPy ℕ), (a.next).2)

/-- `random.random()`: a value in [0, 1), at resolution 10⁻⁶ in this model. -/
def MR.unite : MR ℚ := do
  let v ← MR.suivant
  return ((v % 1000000 : ℕ) : ℚ) / 1000000

/-- `random.uniform(lo, hi) = lo + random() * (hi - lo)`. -/
def MR.uniforme (lo hi : ℚ) : MR ℚ := do
  let u ← MR.unite
  return lo + u * (hi - lo)

/-- `random.randint(lo, hi)`: an integer in `[lo, hi]`; raises ValueError on
an empty range. -/
def MR.randint (lo hi : ℤ) : MR ℤ :=
  if hi < lo then MR.lever .valueError
  else do
    let v ← MR.suivant
    return lo + ((v % (hi - lo + 1).toNat : ℕ) : ℤ)

/-- `random.sample(range(0, n), 2)`: two distinct indices below `n`;
raises ValueError when `n < 2`. -/
def MR.deuxIndices (n : ℕ) : MR (ℕ × ℕ) :=
  if n < 2 then MR.lever .valueError
  else do
    let x ← MR.suivant
    let y ← MR.suivant
    let i := x % n
    let j0 := y % (n - 1)
    return (i, if j0 < i then j0 else j0 + 1)

/-- `random.sample(liste, 3)`: three elements at distinct positions; raises
ValueError when the list has fewer than 3 elements. -/
def MR.troisParmi {α : Type} (l : List α) : MR (α × α × α) :=
  if l.length < 3 then MR.lever .valueError
  else do
    let x ← MR.suivant
    let i := x % l.length
    let l1 := l.eraseIdx i
    let y ← MR.suivant
    let j := y % l1.length
    let l2 := l1.eraseIdx j
    let z ← MR.suivant
    let k := z % l2.length
    match l[i]?, l1[j]?, l2[k]? with
    | some a, some b, some c => return (a, b, c)
    | _, _, _ => MR.lever .valueError

/-- Helper loop of `MR.melanger`: repeatedly extract a stream-chosen
remaining element. -/
def MR.melangerBoucle : ℕ → List ℤ → List ℤ → MR (List ℤ)
  | 0, _, acc => pure acc.reverse
  | _, [], acc => pure acc.reverse
  | fuel + 1, reste, acc => do
    let v ← MR.suivant
    let i := v % reste.length
    MR.melangerBoucle fuel (reste.eraseIdx i) (reste.getD i 0 :: acc)

/-- `random.shuffle`, modelled by repeatedly extracting a stream-chosen
element; the source relies only on the result being some rearrangement. -/
def MR.melanger (l : List ℤ) : MR (List ℤ) := MR.melangerBoucle l.length l []

/-- The pairs (i, j) with i < j < n, in the iteration order of the nested
loops of `_generer_embouteillages`. -/
def pairesSup (n : ℕ) : List (ℕ × ℕ) :=
  (List.range n).flatMap
    (fun i => (List.range' (i + 1) (n - (i + 1))).map (fun j => (i, j)))

/-- One uniform draw per pair, in loop order. -/
def genererValeurs : List (ℕ × ℕ) → MR (List ((ℕ × ℕ) × ℚ))
  | [] => pure []
  | p :: reste =>
    MR.uniforme 1 2 >>= fun f =>
      genererValeurs reste >>= fun suite => pure ((p, f) :: suite)

/-- `_generer_embouteillages` (index.py): a symmetric matrix of congestion
factors drawn uniformly from [1, 2] for each unordered pair, diagonal 1
(the `np.ones` initialisation). -/
def genererEmbouteillages (n : ℕ) : MR (ℕ → ℕ → ℚ) :=
  genererValeurs (pairesSup n) >>= fun valeurs =>
    pure (fun i j =>
      if i = j then 1
      else
        match valeurs.find? (fun q => decide (q.1.1 = min i j ∧ q.1.2 = max i j)) with
        | some q => q.2
        | none => 1)

/-- `GrapheLivraison.__init__` in imported-matrix mode (index.py:
`_init_from_matrix` followed by the capacity check shared by both modes).
The automatic-generation mode (random 2-D positions, Euclidean distances)
performs no additional validation and is outside this embedding: its
distances are square roots of rationals.  Raising ValueError is modelled by
`.error .valueError`. -/
def grapheLivraison_init (camion : Camion) (quantite_par_site : ℚ)
    (matrice_distances : NDArray) : MR GrapheLivraison :=
  if matrice_distances.shape.length ≠ 2 then MR.lever .valueError
  else if matrice_distances.shape.getD 0 0 ≠ matrice_distances.shape.getD 1 0 then
    MR.lever .valueError
  else
    genererEmbouteillages (matrice_distances.shape.getD 0 0) >>= fun facteurs =>
      if (((matrice_distances.shape.getD 0 0 : ℤ) - 1 : ℤ) : ℚ) * quantite_par_site >
          camion.charge_max then
        MR.lever .valueError
      else
        pure
          { camion := camion
            quantite_par_site := quantite_par_site
            depot := 0
            n_total := matrice_distances.shape.getD 0 0
            n_sites := (matrice_distances.shape.getD 0 0 : ℤ) - 1
            distances_base := matrice_distances.data
            facteurs_embouteillage := facteurs
            distances_ajustees :=
              fun i j => matrice_distances.data i j * facteurs i j }

namespace SolveurTSP

/-- Stable insertion used by `triStable`: `prioritaire y x = true` keeps `y`
(already placed) before the newly inserted `x`. -/
def insererTri {α : Type} (prioritaire : α → α → Bool) (x : α) : List α → List α
  | [] => [x]
  | y :: ys =>
    if prioritaire y x then y :: insererTri prioritaire x ys else x :: y :: ys

/-- Stable sort modelling Python's `list.sort` (Timsort is stable): an
element overtakes exactly the later elements that are strictly after it. -/
def triStable {α : Type} (prioritaire : α → α → Bool) : List α → List α
  | [] => []
  | x :: xs => insererTri prioritaire x (triStable prioritaire xs)

/-- `creer_individu_aleatoire`: a shuffled copy of the sites, depot-wrapped. -/
def creer_individu_aleatoire (sites : List ℤ) : MR (List ℤ) := do
  let individu ← MR.melanger sites
  return 0 :: individu ++ [0]

/-- `creer_individu_glouton_varie`: the greedy tour with an optional random
pairwise swap; any failure (the surrounding `try/except`) or a `None` greedy
result falls back to a random individual. -/
def creer_individu_glouton_varie (g : GrapheLivraison) (sites : List ℤ) :
    MR (List ℤ) :=
  MR.attraper
    (do
      let res ← MR.deExcept (glouton_plus_proche g)
      match res.1 with
      | some tournee_glouton => do
        let sites_visite := (tournee_glouton.drop 1).dropLast
        let r ← MR.unite
        if r < 1/2 ∧ 2 ≤ sites_visite.length then do
          let ij ← MR.deuxIndices sites_visite.length
          let a := sites_visite.getD ij.1 0
          let b := sites_visite.getD ij.2 0
          return 0 :: ((sites_visite.set ij.1 b).set ij.2 a) ++ [0]
        else return 0 :: sites_visite ++ [0]
      | none => creer_individu_aleatoire sites)
    (creer_individu_aleatoire sites)

/-- `creer_individu_plus_proche_first`: the closest 60% of the sites first
(`int(len * 0.6)`, at least 1), both groups shuffled. -/
def creer_individu_plus_proche_first (g : GrapheLivraison) (sites : List ℤ) :
    MR (List ℤ) := do
  let sites_distances ← sites.mapM (fun site => do
    let dist ← MR.deExcept (g.distance_ajustee 0 site)
    return (site, dist))
  let tries := triStable (fun y x => decide (y.2 < x.2)) sites_distances
  let nb_proches := max 1 ((3 * tries.length) / 5)
  let sites_proches ← MR.melanger ((tries.take nb_proches).map Prod.fst)
  let sites_lointains ← MR.melanger ((tries.drop nb_proches).map Prod.fst)
  return 0 :: sites_proches ++ sites_lointains ++ [0]

/-- `reparer_individu`: if invalid, re-order the stops by increasing distance
from the depot and re-test; keep the original when that fails too. -/
def reparer_individu (g : GrapheLivraison) (tournee : List ℤ) : MR (List ℤ) := do
  let r ← MR.deExcept (calculer_cout_tournee g tournee)
  if r.valide then return tournee
  else do
    let sites_tournee := (tournee.drop 1).dropLast
    let sites_avec_dist ← sites_tournee.mapM (fun site => do
      let dist ← MR.deExcept (g.distance_ajustee 0 site)
      return (site, dist))
    let tries := triStable (fun y x => decide (y.2 < x.2)) sites_avec_dist
    let tournee_reparee := 0 :: (tries.map Prod.fst) ++ [0]
    let r2 ← MR.deExcept (calculer_cout_tournee g tournee_reparee)
    if r2.valide then return tournee_reparee else return tournee

/-- The `while len(population) < taille_population` seeding loop; each pass
appends exactly one repaired individual, so `fuel = taille_population`
iterations always suffice. -/
def remplirPopulation (g : GrapheLivraison) (sites : List ℤ)
    (taille_population : ℕ) : ℕ → List (List ℤ) → MR (List (List ℤ))
  | 0, population =>
    if population.length < taille_population then MR.lever .boucleInfinie
    else pure population
  | fuel + 1, population =>
    if population.length < taille_population then do
      let rand ← MR.unite
      let individu ←
        if rand < 2/5 then creer_individu_glouton_varie g sites
        else if rand < 7/10 then creer_individu_plus_proche_first g sites
        else creer_individu_aleatoire sites
      let repare ← reparer_individu g individu
      remplirPopulation g sites taille_population fuel (population ++ [repare])
    else pure population

/-- The hybrid initial population: first the greedy tour when it exists
(`try/except` around the call), then the 40/30/30 mix of strategies. -/
def populationInitiale (g : GrapheLivraison) (sites : List ℤ)
    (taille_population : ℕ) : MR (List (List ℤ)) := do
  let base ← MR.attraper
    (do
      let res ← MR.deExcept (glouton_plus_proche g)
      match res.1 with
      | some t => pure [t]
      | none => pure ([] : List (List ℤ)))
    (pure [])
  remplirPopulation g sites taille_population taille_population base

/-- `evaluer_fitness`: `1000.0 / cout` for a valid tour (Python raises
ZeroDivisionError on a zero cost and yields 0.0 on an infinite one), `0`
for an invalid tour. -/
def evaluer_fitness (g : GrapheLivraison) (tournee : List ℤ) :
    MR (ℚ × WithTop ℚ × Bool) := do
  let r ← MR.deExcept (calculer_cout_tournee g tournee)
  if r.valide then
    if r.cout = ⊤ then pure (0, r.cout, true)
    else
      let c := r.cout.untop' 0
      if c = 0 then MR.lever .zeroDivisionError
      else pure (1000 / c, r.cout, true)
  else pure (0, r.cout, false)

/-- One evaluated member of the population (the tuple
`(individu, fitness, cout, valide)` of the source). -/
structure IndividuEvalue where
  tournee : List ℤ
  fitness : ℚ
  cout : WithTop ℚ
  valide : Bool

/-- `selectionner_parents`: 3-way tournament; `max` with a key keeps the
first element on ties. -/
def selectionner_parents (population_evaluee : List IndividuEvalue) :
    MR (List ℤ) := do
  let t ← MR.troisParmi population_evaluee
  let m1 := if t.2.1.fitness > t.1.fitness then t.2.1 else t.1
  let gagnant := if t.2.2.fitness > m1.fitness then t.2.2 else m1
  return gagnant.tournee

/-- The inner `while enfant[pos] is not None` search of `croiser`: from `pos`
(wrapped to 0 past the end) advance cyclically to the first free slot.  When
no slot is free the Python loop does not terminate; `fuel` exhaustion models
that as `.error .boucleInfinie`. -/
def chercherLibre : List (Option ℤ) → ℕ → ℕ → Except ErrPy ℕ
  | _, _, 0 => .error .boucleInfinie
  | enfant, pos, fuel + 1 =>
    let p := if pos ≥ enfant.length then 0 else pos
    match enfant.getD p none with
    | none => .ok p
    | some _ => chercherLibre enfant (p + 1) fuel

/-- The fill loop of `croiser`: each site of parent 2 that is not yet in the
child goes to the next free slot. -/
def remplirEnfant : List ℤ → List (Option ℤ) → ℕ → Except ErrPy (List (Option ℤ) × ℕ)
  | [], enfant, pos => .ok (enfant, pos)
  | site :: reste, enfant, pos =>
    if (some site) ∈ enfant then remplirEnfant reste enfant pos
    else do
      let i ← chercherLibre enfant pos (enfant.length + 1)
      remplirEnfant reste (enfant.set i (some site)) i

/-- Extract the entries of a fully filled child; `none` when a `None`
placeholder survives. -/
def valeursToutes : List (Option ℤ) → Option (List ℤ)
  | [] => some []
  | none :: _ => none
  | some x :: reste => (valeursToutes reste).map (fun l => x :: l)

/-- `croiser` (order crossover): keep a random slice of parent 1, fill the
remaining positions with parent 2's sites in order, re-wrap with the depot.
A surviving `None` placeholder would crash the next evaluation of the child
in Python (`distance_ajustee(None, ...)` is a TypeError); it is modelled by
raising at once. -/
def croiser (p1 p2 : List ℤ) : MR (List ℤ) := do
  let q1 := (p1.drop 1).dropLast
  let q2 := (p2.drop 1).dropLast
  let debut ← MR.randint 0 ((q1.length : ℤ) - 2)
  let fin ← MR.randint (debut + 1) (q1.length : ℤ)
  let d := debut.toNat
  let f := fin.toNat
  let enfant0 : List (Option ℤ) :=
    (List.range q1.length).map
      (fun i => if d ≤ i ∧ i < f then some (q1.getD i 0) else none)
  let rempli ← MR.deExcept (remplirEnfant q2 enfant0 f)
  match valeursToutes rempli.1 with
  | some enfant => return 0 :: enfant ++ [0]
  | none => MR.lever .typeError

/-- `t[i], t[j] = t[j], t[i]`. -/
def echangerPositions (t : List ℤ) (i j : ℕ) : List ℤ :=
  (t.set i (t.getD j 0)).set j (t.getD i 0)

/-- `t[d:f] = reversed(t[d:f])`. -/
def renverserSegment (t : List ℤ) (d f : ℕ) : List ℤ :=
  t.take d ++ ((t.drop d).take (f - d)).reverse ++ t.drop f

/-- `site = t.pop(i)`: the removed entry and the remaining list. -/
def retirerPosition (t : List ℤ) (i : ℕ) : ℤ × List ℤ :=
  (t.getD i 0, t.take i ++ t.drop (i + 1))

/-- `t.insert(p, site)`. -/
def insererPosition (t : List ℤ) (p : ℕ) (site : ℤ) : List ℤ :=
  t.take p ++ site :: t.drop p

/-- `muter` (tsp_solver.py): with probability `taux_mutation`, one of pairwise
swap (40%), segment reversal (30%) or removal-and-reinsertion (30%), all on
non-depot positions. -/
def muter (taux_mutation : ℚ) (tournee : List ℤ) : MR (List ℤ) := do
  let r ← MR.unite
  if r ≥ taux_mutation then return tournee
  else do
    let strategie ← MR.unite
    if strategie < 2/5 then do
      let ij ← MR.deuxIndices (tournee.length - 2)
      return echangerPositions tournee (1 + ij.1) (1 + ij.2)
    else if strategie < 7/10 then do
      let debut ← MR.randint 1 ((tournee.length : ℤ) - 3)
      let fin ← MR.randint (debut + 1) ((tournee.length : ℤ) - 1)
      return renverserSegment tournee debut.toNat fin.toNat
    else
      if tournee.length > 3 then do
        let site_idx ← MR.randint 1 ((tournee.length : ℤ) - 2)
        let sr := retirerPosition tournee site_idx.toNat
        let nouvelle_pos ← MR.randint 1 ((sr.2.length : ℤ) - 1)
        return insererPosition sr.2 nouvelle_pos.toNat sr.1
      else return tournee

/-- The index pairs (i, j) of the nested 2-opt loops
(`i in range(1, n-2)`, `j in range(i+1, n-1)`). -/
def pairesDeuxOpt (n : ℕ) : List (ℕ × ℕ) :=
  (List.range' 1 (n - 3)).flatMap
    (fun i => (List.range' (i + 1) (n - 2 - i)).map (fun j => (i, j)))

/-- The candidate scan of `amelioration_locale`; every candidate reverses a
segment of the tour given to the pass (not of the current best). -/
def deuxOptBoucle (g : GrapheLivraison) (tournee : List ℤ) :
    List (ℕ × ℕ) → List ℤ → WithTop ℚ → Except ErrPy (List ℤ)
  | [], meilleure, _ => .ok meilleure
  | (i, j) :: reste, meilleure, cout_actuel => do
    let nouvelle := renverserSegment tournee i (j + 1)
    let r ← calculer_cout_tournee g nouvelle
    if r.valide ∧ r.cout < cout_actuel then
      deuxOptBoucle g tournee reste nouvelle r.cout
    else deuxOptBoucle g tournee reste meilleure cout_actuel

/-- `amelioration_locale`: one full 2-opt pass keeping any strictly improving
valid reversal; invalid inputs are returned unchanged. -/
def amelioration_locale (g : GrapheLivraison) (tournee : List ℤ) :
    Except ErrPy (List ℤ) := do
  let r ← calculer_cout_tournee g tournee
  if ¬ r.valide then return tournee
  else deuxOptBoucle g tournee (pairesDeuxOpt tournee.length) tournee r.cout

/-- Evaluate the whole population. -/
def evaluerPopulation (g : GrapheLivraison) (population : List (List ℤ)) :
    MR (List IndividuEvalue) :=
  population.mapM (fun individu => do
    let fcv ← evaluer_fitness g individu
    return ⟨individu, fcv.1, fcv.2.1, fcv.2.2⟩)

/-- The reproduction loop filling the next generation after the elites;
each pass appends exactly one offspring, so `fuel = taille_population`
iterations always suffice. -/
def remplirNouvelle (g : GrapheLivraison) (taux_mutation : ℚ)
    (population_evaluee : List IndividuEvalue) (taille_population : ℕ) :
    ℕ → List (List ℤ) → MR (List (List ℤ))
  | 0, nouvelle =>
    if nouvelle.length < taille_population then MR.lever .boucleInfinie
    else pure nouvelle
  | fuel + 1, nouvelle =>
    if nouvelle.length < taille_population then do
      let parent1 ← selectionner_parents population_evaluee
      let parent2 ← selectionner_parents population_evaluee
      let enfant1 ← croiser parent1 parent2
      let enfant2 ← muter taux_mutation enfant1
      let r ← MR.unite
      let enfant3 ←
        if r < 1/10 then MR.deExcept (amelioration_locale g enfant2)
        else pure enfant2
      remplirNouvelle g taux_mutation population_evaluee taille_population fuel
        (nouvelle ++ [enfant3])
    else pure nouvelle

/-- The `for generation in range(nb_generations)` loop: evaluate, sort by
fitness (descending, stable), update the global best from the head of the
sorted population (`population_evaluee[0]` raises IndexError on an empty
population), append it to the trace, then breed the next population. -/
def boucleGenerations (g : GrapheLivraison) (taille_population : ℕ)
    (taux_mutation : ℚ) (nb_elite : ℕ) :
    ℕ → List (List ℤ) → WithTop ℚ → Option (List ℤ) → List (WithTop ℚ) →
    MR (Option (List ℤ) × WithTop ℚ × List (WithTop ℚ))
  | 0, _, meilleur_cout, meilleure_tournee, historique =>
    pure (meilleure_tournee, meilleur_cout, historique)
  | nb + 1, population, meilleur_cout, meilleure_tournee, historique => do
    let population_evaluee ← evaluerPopulation g population
    let triee := triStable (fun y x => decide (x.fitness < y.fitness)) population_evaluee
    match triee with
    | [] => MR.lever .indexError
    | meilleur_generation :: _ => do
      let nouveau :=
        if meilleur_generation.valide ∧ meilleur_generation.cout < meilleur_cout then
          (meilleur_generation.cout, some meilleur_generation.tournee)
        else (meilleur_cout, meilleure_tournee)
      let elites := (triee.take nb_elite).map IndividuEvalue.tournee
      let nouvelle ← remplirNouvelle g taux_mutation triee taille_population
        taille_population elites
      boucleGenerations g taille_population taux_mutation nb_elite nb nouvelle
        nouveau.1 nouveau.2 (historique ++ [nouveau.1])

/-- `algorithme_genetique` (tsp_solver.py, verbose = False): hybrid seeding,
then `nb_generations` elitist generations; returns (best tour, best cost,
per-generation best-cost trace).  `int(taille * taux_elitisme)` truncates;
for the non-negative arguments of interest that is the floor. -/
def algorithme_genetique (g : GrapheLivraison)
    (taille_population nb_generations : ℕ) (taux_mutation taux_elitisme : ℚ) :
    MR (Option (List ℤ) × WithTop ℚ × List (WithTop ℚ)) := do
  let sites := sites_a_visiter g
  let population ← populationInitiale g sites taille_population
  let nb_elite := (⌊(taille_population : ℚ) * taux_elitisme⌋).toNat
  boucleGenerations g taille_population taux_mutation nb_elite nb_generations
    population ⊤ none []

end SolveurTSP

/-! ## Generic lemmas about the embedded effects -/

@[simp] theorem exBind_ok {α β : Type} (a : α) (f : α → Except ErrPy β) :
    (Except.ok a >>= f) = f a := rfl

@[simp] theorem exBind_error {α β : Type} (e : ErrPy) (f : α → Except ErrPy β) :
    ((Except.error e : Except ErrPy α) >>= f) = .error e := rfl

@[simp] theorem exPure {α : Type} (a : α) : (pure a : Except ErrPy α) = .ok a := rfl

theorem exBind_eq_ok {α β : Type} {m : Except ErrPy α} {f : α → Except ErrPy β} {v : β} :
    (m >>= f) = .ok v ↔ ∃ w, m = .ok w ∧ f w = .ok v := by
  cases m <;> simp

theorem exBind_eq_error {α β : Type} {m : Except ErrPy α} {f : α → Except ErrPy β} {e : ErrPy} :
    (m >>= f) = .error e ↔
      m = .error e ∨ ∃ w, m = .ok w ∧ f w = .error e := by
  cases m <;> simp

theorem npIdx_ok_intervalle {n : ℕ} {i : ℤ} (h0 : 0 ≤ i) (h1 : i < (n : ℤ)) :
    npIdx n i = .ok i.toNat := by
  unfold npIdx
  rw [if_pos ⟨h0, h1⟩]

theorem npIdx_neg {n : ℕ} {i : ℤ} (h0 : -(n : ℤ) ≤ i) (h1 : i < 0) :
    npIdx n i = .ok (i + (n : ℤ)).toNat := by
  unfold npIdx
  rw [if_neg (by omega), if_pos ⟨h0, h1⟩]

theorem npIdx_erreur {n : ℕ} {i : ℤ} (h : i < -(n : ℤ) ∨ (n : ℤ) ≤ i) :
    npIdx n i = .error .indexError := by
  unfold npIdx
  rw [if_neg (by omega), if_neg (by omega)]

theorem npIdx_jamais_valueError {n : ℕ} {i : ℤ} {e : ErrPy}
    (h : npIdx n i = .error e) : e = .indexError := by
  unfold npIdx at h
  split at h
  · simp at h
  · split at h
    · simp at h
    · simpa using h.symm

/-! ## Shape lemmas about the evaluator -/

theorem distance_ajustee_erreur {g : GrapheLivraison} {i j : ℤ} {e : ErrPy}
    (h : g.distance_ajustee i j = .error e) : e = .indexError := by
  unfold GrapheLivraison.distance_ajustee at h
  split at h
  · rename_i e1 he
    injection h with h2
    rw [← h2]
    exact npIdx_jamais_valueError he
  · split at h
    · rename_i e2 he2
      injection h with h2
      rw [← h2]
      exact npIdx_jamais_valueError he2
    · simp at h

theorem peut_revenir_erreur {g : GrapheLivraison} {s : ℤ} {c q : ℚ} {e : ErrPy}
    (h : g.peut_revenir_au_depot s c q = .error e) : e = .indexError := by
  unfold GrapheLivraison.peut_revenir_au_depot at h
  split at h
  · rename_i e1 he
    injection h with h2
    rw [← h2]
    exact distance_ajustee_erreur he
  · simp at h

theorem simulerEtape_erreur {g : GrapheLivraison} {et : Etat} {tron : ℤ × ℤ} {e : ErrPy}
    (h : SolveurTSP.simulerEtape g et tron = .error e) : e = .indexError := by
  unfold SolveurTSP.simulerEtape at h
  split at h
  · rename_i e1 he
    injection h with h2
    rw [← h2]
    exact distance_ajustee_erreur he
  · split at h
    · simp at h
    · split at h
      · split at h
        · rename_i e2 he2
          injection h with h2
          rw [← h2]
          exact peut_revenir_erreur he2
        · split at h <;> simp at h
      · simp at h

theorem simulerEtape_inr {g : GrapheLivraison} {et : Etat} {tron : ℤ × ℤ} {res : EvalRes}
    (h : SolveurTSP.simulerEtape g et tron = .ok (.inr res)) :
    res.cout = ⊤ ∧ res.valide = false := by
  unfold SolveurTSP.simulerEtape at h
  split at h
  · simp at h
  · split at h
    · simp at h
      rw [← h]
      exact ⟨rfl, rfl⟩
    · split at h
      · split at h
        · simp at h
        · split at h
          · simp at h
          · simp at h
            rw [← h]
            exact ⟨rfl, rfl⟩
      · simp at h

theorem simulerTroncons_erreur {g : GrapheLivraison} {l : List (ℤ × ℤ)} {et : Etat} {e : ErrPy}
    (h : SolveurTSP.simulerTroncons g l et = .error e) : e = .indexError := by
  induction l generalizing et with
  | nil => simp [SolveurTSP.simulerTroncons] at h
  | cons tron rest ih =>
    unfold SolveurTSP.simulerTroncons at h
    split at h
    · rename_i e1 he
      injection h with h2
      rw [← h2]
      exact simulerEtape_erreur he
    · exact ih h
    · simp at h

theorem simulerTroncons_inr {g : GrapheLivraison} {l : List (ℤ × ℤ)} {et : Etat} {res : EvalRes}
    (h : SolveurTSP.simulerTroncons g l et = .ok (.inr res)) :
    res.cout = ⊤ ∧ res.valide = false := by
  induction l generalizing et with
  | nil => simp [SolveurTSP.simulerTroncons] at h
  | cons tron rest ih =>
    unfold SolveurTSP.simulerTroncons at h
    split at h
    · simp at h
    · exact ih h
    · rename_i res2 he
      simp at h
      rw [← h]
      exact simulerEtape_inr he

theorem calculer_cout_erreur {g : GrapheLivraison} {t : List ℤ} {e : ErrPy}
    (h : SolveurTSP.calculer_cout_tournee g t = .error e) : e = .indexError := by
  unfold SolveurTSP.calculer_cout_tournee at h
  split at h
  · injection h with h2
    exact h2.symm
  · split at h
    · simp at h
    · split at h
      · simp at h
      · split at h
        · simp at h
        · split at h
          · rename_i e1 he
            injection h with h2
            rw [← h2]
            exact simulerTroncons_erreur he
          · simp at h
          · simp at h

theorem forceBruteBoucle_erreur {g : GrapheLivraison} {ps : List (List ℤ)}
    {acc : Option (List ℤ) × WithTop ℚ} {e : ErrPy}
    (h : SolveurTSP.forceBruteBoucle g ps acc = .error e) : e = .indexError := by
  induction ps generalizing acc with
  | nil => simp [SolveurTSP.forceBruteBoucle] at h
  | cons p rest ih =>
    unfold SolveurTSP.forceBruteBoucle at h
    split at h
    · rename_i e1 he
      injection h with h2
      rw [← h2]
      exact calculer_cout_erreur he
    · split at h
      · exact ih h
      · exact ih h

/-- Every evaluator result is either valid with a finite cost and the empty
message, or invalid with an infinite cost. -/
theorem calculer_cout_forme {g : GrapheLivraison} {t : List ℤ} {r : EvalRes}
    (h : SolveurTSP.calculer_cout_tournee g t = .ok r) :
    (r.valide = true ∧ r.msg = .aucune ∧ ∃ c : ℚ, r.cout = (c : WithTop ℚ)) ∨
    (r.valide = false ∧ r.cout = ⊤) := by
  unfold SolveurTSP.calculer_cout_tournee at h
  split at h
  · simp at h
  · split at h
    · simp at h
      rw [← h]
      exact .inr ⟨rfl, rfl⟩
    · split at h
      · simp at h
        rw [← h]
        exact .inr ⟨rfl, rfl⟩
      · split at h
        · simp at h
          rw [← h]
          exact .inr ⟨rfl, rfl⟩
        · split at h
          · simp at h
          · rename_i et he
            simp at h
            rw [← h]
            exact .inl ⟨rfl, rfl, et.2.2, rfl⟩
          · rename_i res2 he
            simp at h
            rw [← h]
            exact .inr ⟨(simulerTroncons_inr he).2, (simulerTroncons_inr he).1⟩

/-! ## Concrete instances used by witnesses and counterexamples -/

/-- Matrix entries from a list of rows (entries outside default to 0). -/
def matriceDe (m : List (List ℚ)) : ℕ → ℕ → ℚ :=
  fun i j => (m.getD i []).getD j 0

/-- A small truck: 1000 kg empty, 100 kg load capacity, 1000 L tank. -/
def camionTest : Camion := ⟨1000, 100, 1000⟩

/-- A 2-delivery-site network with unit congestion, symmetric distances
d(0,1) = 1, d(0,2) = 2, d(1,2) = 1, and 10 kg delivered per site. -/
def grapheTest : GrapheLivraison :=
  { camion := camionTest
    quantite_par_site := 10
    depot := 0
    n_total := 3
    n_sites := 2
    distances_base := matriceDe [[0, 1, 2], [1, 0, 1], [2, 1, 0]]
    facteurs_embouteillage := fun _ _ => 1
    distances_ajustees := matriceDe [[0, 1, 2], [1, 0, 1], [2, 1, 0]] }

/-- An 11-delivery-site network (12 sites in total, above the brute-force
ceiling); all inter-site distances 1. -/
def grapheOnze : GrapheLivraison :=
  { camion := camionTest
    quantite_par_site := 1
    depot := 0
    n_total := 12
    n_sites := 11
    distances_base := fun i j => if i = j then 0 else 1
    facteurs_embouteillage := fun _ _ => 1
    distances_ajustees := fun i j => if i = j then 0 else 1 }

/-! ## C7: scale refusal of the Exact Solver -/

/-- C7: invoking `force_brute` on an instance whose site count exceeds the
configured ceiling (10) raises the size-limit ValueError — for every such
instance, including those whose evaluation would itself fail, which shows the
refusal precedes any permutation being evaluated — and no tour is returned
with it (the error carries no partial result); for a site count at or below
the ceiling that size-limit error is never raised. -/
theorem C7_plafond_force_brute (g : GrapheLivraison) :
    (g.n_sites > 10 → SolveurTSP.force_brute g = .error .valueError) ∧
    (g.n_sites ≤ 10 → SolveurTSP.force_brute g ≠ .error .valueError) := by
  constructor
  · intro h
    unfold SolveurTSP.force_brute
    rw [if_pos h]
  · intro h hc
    unfold SolveurTSP.force_brute at hc
    rw [if_neg (by omega)] at hc
    have h2 := forceBruteBoucle_erreur hc
    simp at h2

/-- Witness for C7 at two concrete instances (11 sites and 2 sites). -/
theorem C7_plafond_force_brute_temoin :
    SolveurTSP.force_brute grapheOnze = .error .valueError ∧
    SolveurTSP.force_brute grapheTest ≠ .error .valueError :=
  ⟨(C7_plafond_force_brute grapheOnze).1 (by decide),
   (C7_plafond_force_brute grapheTest).2 (by decide)⟩

/-! ## C3: the evaluator's wrong-site-set rejections -/

/-- C3 (amended): the Evaluator rejects, with cost ∞, valid = false and a
message specific to the failed check, every nonempty tour that does not start
and end at the depot, whose interior repeats an entry, or whose length minus 2
differs from the expected site count — and within invalid results the message
distinguishes exactly these wrong-site-set failures from the fuel failures.
(The original claim further asserted that every tour missing a non-depot site
is rejected; `C3_contre_exemple` refutes that: an interior padded with the
depot keeps the expected length and can be accepted as valid.) -/
theorem C3_rejets_evaluateur (g : GrapheLivraison) (t : List ℤ) (hne : t ≠ []) :
    (¬ (t.head? = some 0 ∧ t.getLast? = some 0) →
      SolveurTSP.calculer_cout_tournee g t = .ok ⟨⊤, false, .pasDepot⟩) ∧
    (t.head? = some 0 → t.getLast? = some 0 → ¬ ((t.drop 1).dropLast).Nodup →
      SolveurTSP.calculer_cout_tournee g t = .ok ⟨⊤, false, .siteRepete⟩) ∧
    (t.head? = some 0 → t.getLast? = some 0 → ((t.drop 1).dropLast).Nodup →
      (t.length : ℤ) - 2 ≠ g.n_sites →
      SolveurTSP.calculer_cout_tournee g t =
        .ok ⟨⊤, false, .sitesManquants g.n_sites ((t.length : ℤ) - 2)⟩) ∧
    (∀ r : EvalRes, SolveurTSP.calculer_cout_tournee g t = .ok r →
      (r.msg.estProblemeSites = true ↔
        r.msg = .pasDepot ∨ r.msg = .siteRepete ∨ ∃ a b, r.msg = .sitesManquants a b)) := by
  have hvide : ¬ (t.isEmpty = true) := by
    cases t
    · exact absurd rfl hne
    · simp
  refine ⟨?_, ?_, ?_, ?_⟩
  · intro h
    unfold SolveurTSP.calculer_cout_tournee
    rw [if_neg hvide, if_pos (by tauto)]
  · intro h1 h2 h3
    unfold SolveurTSP.calculer_cout_tournee
    rw [if_neg hvide, if_neg (by simp [h1, h2]), if_pos h3]
  · intro h1 h2 h3 h4
    unfold SolveurTSP.calculer_cout_tournee
    rw [if_neg hvide, if_neg (by simp [h1, h2]), if_neg (by simpa using h3), if_pos h4]
  · intro r _
    cases r.msg <;> simp [MsgErreur.estProblemeSites]

/-- Witness for C3 (amended) at concrete inputs: a tour not ending at the
depot, one repeating site 1, and one with a missing length. -/
theorem C3_rejets_evaluateur_temoin :
    SolveurTSP.calculer_cout_tournee grapheTest [0, 1, 2] = .ok ⟨⊤, false, .pasDepot⟩ ∧
    SolveurTSP.calculer_cout_tournee grapheTest [0, 1, 1, 0] = .ok ⟨⊤, false, .siteRepete⟩ ∧
    SolveurTSP.calculer_cout_tournee grapheTest [0, 1, 0] =
      .ok ⟨⊤, false, .sitesManquants 2 1⟩ :=
  ⟨(C3_rejets_evaluateur grapheTest [0, 1, 2] (by decide)).1 (by decide),
   (C3_rejets_evaluateur grapheTest [0, 1, 1, 0] (by decide)).2.1 (by decide) (by decide)
     (by decide),
   (C3_rejets_evaluateur grapheTest [0, 1, 0] (by decide)).2.2.1 (by decide) (by decide)
     (by decide) (by decide)⟩

/-- C3 counterexample: on `grapheTest` (2 delivery sites), the tour
[0, 0, 2, 0] misses delivery site 1 entirely, yet the Evaluator accepts it as
valid with a finite cost, because the depot in the interior keeps the length
check satisfied and the duplicate check only inspects the interior. -/
theorem C3_contre_exemple :
    SolveurTSP.calculer_cout_tournee grapheTest [0, 0, 2, 0] =
      .ok ⟨((1003 / 1000 : ℚ) : WithTop ℚ), true, .aucune⟩ ∧
    (1 : ℤ) ∉ ([0, 0, 2, 0] : List ℤ) ∧
    (1 : ℤ) ∈ SolveurTSP.sites_a_visiter grapheTest :=
  ⟨by with_unfolding_all rfl, by decide, by decide⟩

/-! ## C5: configuration errors at construction -/

/-- Evaluation rule of the MR bind. -/
theorem mr_bind_eval {α β : Type} (m : MR α) (f : α → MR β) (a : Alea) :
    (m >>= f) a =
      match m a with
      | (.ok x, a2) => f x a2
      | (.error e, a2) => (.error e, a2) := rfl

/-- Evaluation rule of the MR pure. -/
theorem mr_pure_eval {α : Type} (x : α) (a : Alea) :
    (pure x : MR α) a = (.ok x, a) := rfl

/-- Evaluation rule of MR.lever. -/
theorem mr_lever_eval {α : Type} (e : ErrPy) (a : Alea) :
    (MR.lever e : MR α) a = (.error e, a) := rfl

theorem genererValeurs_ok (l : List (ℕ × ℕ)) (a : Alea) :
    ∃ v a2, genererValeurs l a = (.ok v, a2) := by
  induction l generalizing a with
  | nil => exact ⟨[], a, rfl⟩
  | cons p reste ih =>
    unfold genererValeurs
    have hu : ∃ u a1, MR.uniforme 1 2 a = (.ok u, a1) := ⟨_, _, rfl⟩
    obtain ⟨u, a1, hu⟩ := hu
    rw [mr_bind_eval, hu]
    dsimp only
    obtain ⟨v, a2, hv⟩ := ih a1
    rw [mr_bind_eval, hv]
    dsimp only
    rw [mr_pure_eval]
    exact ⟨_, _, rfl⟩

theorem genererEmbouteillages_ok (n : ℕ) (a : Alea) :
    ∃ f a2, genererEmbouteillages n a = (.ok f, a2) := by
  unfold genererEmbouteillages
  obtain ⟨v, a2, hv⟩ := genererValeurs_ok (pairesSup n) a
  rw [mr_bind_eval, hv]
  dsimp only
  rw [mr_pure_eval]
  exact ⟨_, _, rfl⟩

/-- C5 (amended): the model constructor raises its configuration ValueError —
before any solver can run, since no `GrapheLivraison` value is produced —
exactly when the supplied distance matrix is not 2-D, is not square, or the
total demand (site count × per-stop quantity) exceeds the vehicle capacity.
The demand check therefore always fires at construction, as the claim states;
but matrix asymmetry and a site count below 2 are NOT checked
(`C5_contre_exemple`). -/
theorem C5_erreurs_construction (camion : Camion) (q : ℚ) (m : NDArray) (a : Alea) :
    (grapheLivraison_init camion q m a).1 = .error .valueError ↔
      (m.shape.length ≠ 2 ∨ m.shape.getD 0 0 ≠ m.shape.getD 1 0 ∨
        (((m.shape.getD 0 0 : ℤ) - 1 : ℤ) : ℚ) * q > camion.charge_max) := by
  unfold grapheLivraison_init
  split
  · rename_i h1
    exact iff_of_true rfl (.inl h1)
  · split
    · rename_i h1 h2
      exact iff_of_true rfl (.inr (.inl h2))
    · rename_i h1 h2
      obtain ⟨f, a2, hf⟩ := genererEmbouteillages_ok (m.shape.getD 0 0) a
      rw [mr_bind_eval, hf]
      dsimp only
      split
      · rename_i h3
        exact iff_of_true rfl (.inr (.inr h3))
      · rename_i h3
        apply iff_of_false
        · rw [mr_pure_eval]
          intro hc
          exact Except.noConfusion hc
        · rintro (hc | hc | hc)
          · exact h1 hc
          · exact h2 hc
          · exact h3 hc

/-- `Except` success test. -/
def estOk {α : Type} : Except ErrPy α → Bool
  | .ok _ => true
  | .error _ => false

/-- A square but asymmetric 3×3 distance matrix (d(0,1) = 1 ≠ 5 = d(1,0)). -/
def matriceAsym : NDArray := ⟨[3, 3], matriceDe [[0, 1, 2], [5, 0, 1], [2, 1, 0]]⟩

/-- A 2×2 distance matrix: one single delivery site (below the documented
minimum of 2). -/
def matriceDeuxDeux : NDArray := ⟨[2, 2], matriceDe [[0, 1], [1, 0]]⟩

/-- The all-zero random stream. -/
def aleaZero : Alea := ⟨fun _ => 0, 0⟩

/-- C5 counterexample: constructing the model succeeds on an asymmetric
distance matrix, and succeeds with a site count of 1 (below the claimed
minimum of 2) — neither configuration error of the claim is raised. -/
theorem C5_contre_exemple :
    matriceAsym.data 0 1 ≠ matriceAsym.data 1 0 ∧
    estOk (grapheLivraison_init camionTest 10 matriceAsym aleaZero).1 = true ∧
    matriceDeuxDeux.shape = [2, 2] ∧
    estOk (grapheLivraison_init camionTest 10 matriceDeuxDeux aleaZero).1 = true :=
  ⟨by with_unfolding_all decide, by with_unfolding_all rfl, rfl,
   by with_unfolding_all rfl⟩

/-! ## C6: the distance accessor -/

/-- Entries of `matriceDe m` are non-negative whenever all listed entries
are (out-of-range entries default to 0). -/
theorem matriceDe_nonneg (m : List (List ℚ)) (h : ∀ r ∈ m, ∀ x ∈ r, 0 ≤ x) :
    ∀ a b : ℕ, 0 ≤ matriceDe m a b := by
  intro a b
  unfold matriceDe
  rw [List.getD_eq_getElem?_getD, List.getD_eq_getElem?_getD]
  cases h1 : m[a]? with
  | none => simp
  | some r =>
    dsimp only [Option.getD]
    cases h2 : r[b]? with
    | none => simp
    | some x =>
      simpa using h r (List.getElem?_mem h1) x (List.getElem?_mem h2)

/-- C6 (amended): `distance_ajustee(i, j)` returns a value whenever both
indices are numpy-valid for the (n+1)-site instance, i.e. lie in
[-(n+1), n]; the value is non-negative whenever the stored adjusted-distance
entries are non-negative (always true for generated instances, not enforced
for imported matrices); an index in [-(n+1), -1] is accepted and aliases the
site it reaches counting from the end; and the out-of-range IndexError is
raised exactly when some index falls outside [-(n+1), n].  (The original
claim said every index outside [0, n] fails and every returned value is
non-negative; `C6_contre_exemple` refutes both.) -/
theorem C6_distance_ajustee (g : GrapheLivraison) (i j : ℤ) :
    (0 ≤ i → i < (g.n_total : ℤ) → 0 ≤ j → j < (g.n_total : ℤ) →
      (∀ a b : ℕ, 0 ≤ g.distances_ajustees a b) →
      ∃ d : ℚ, g.distance_ajustee i j = .ok d ∧ 0 ≤ d) ∧
    ((i < -(g.n_total : ℤ) ∨ (g.n_total : ℤ) ≤ i ∨
      j < -(g.n_total : ℤ) ∨ (g.n_total : ℤ) ≤ j) →
      g.distance_ajustee i j = .error .indexError) ∧
    (-(g.n_total : ℤ) ≤ i → i < 0 → 0 ≤ j → j < (g.n_total : ℤ) →
      g.distance_ajustee i j =
        .ok (g.distances_ajustees (i + (g.n_total : ℤ)).toNat j.toNat)) := by
  refine ⟨?_, ?_, ?_⟩
  · intro h1 h2 h3 h4 h5
    unfold GrapheLivraison.distance_ajustee
    rw [npIdx_ok_intervalle h1 h2, npIdx_ok_intervalle h3 h4]
    exact ⟨_, rfl, h5 _ _⟩
  · intro h
    unfold GrapheLivraison.distance_ajustee
    rcases h with h | h | h | h
    · rw [npIdx_erreur (.inl h)]
    · rw [npIdx_erreur (.inr h)]
    all_goals {
      cases h1 : npIdx g.n_total i with
      | error e =>
        have he := npIdx_jamais_valueError h1
        dsimp only
        rw [he]
      | ok w =>
        dsimp only
        rw [npIdx_erreur (show j < -(g.n_total : ℤ) ∨ (g.n_total : ℤ) ≤ j by omega)]
    }
  · intro h1 h2 h3 h4
    unfold GrapheLivraison.distance_ajustee
    rw [npIdx_neg h1 h2, npIdx_ok_intervalle h3 h4]

/-- A 1-delivery-site network whose imported base distance d(0,1) is the
negative value −5 (nothing in the constructor forbids it). -/
def grapheNegatif : GrapheLivraison :=
  { camion := camionTest
    quantite_par_site := 10
    depot := 0
    n_total := 2
    n_sites := 1
    distances_base := matriceDe [[0, -5], [-5, 0]]
    facteurs_embouteillage := fun _ _ => 1
    distances_ajustees := matriceDe [[0, -5], [-5, 0]] }

/-- C6 counterexample: the out-of-claim index −1 does not raise an error but
returns the distance of the aliased last site, and at the perfectly valid
index pair (0, 1) of `grapheNegatif` the returned value is negative. -/
theorem C6_contre_exemple :
    grapheTest.distance_ajustee (-1) 0 = .ok 2 ∧
    grapheNegatif.distance_ajustee 0 1 = .ok (-5) ∧ ((-5 : ℚ) < 0) :=
  ⟨by with_unfolding_all rfl, by with_unfolding_all rfl, by norm_num⟩

/-- Witness for C6 (amended) at the concrete in-range pair (1, 2) of
`grapheTest`, the out-of-range pair (3, 0), and the aliasing pair (−1, 0). -/
theorem C6_distance_ajustee_temoin :
    (∃ d : ℚ, grapheTest.distance_ajustee 1 2 = .ok d ∧ 0 ≤ d) ∧
    grapheTest.distance_ajustee 3 0 = .error .indexError ∧
    grapheTest.distance_ajustee (-1) 0 =
      .ok (grapheTest.distances_ajustees ((-1 : ℤ) + 3).toNat (0 : ℤ).toNat) :=
  ⟨(C6_distance_ajustee grapheTest 1 2).1 (by decide) (by decide) (by decide) (by decide)
      (matriceDe_nonneg [[0, 1, 2], [1, 0, 1], [2, 1, 0]] (by norm_num)),
   (C6_distance_ajustee grapheTest 3 0).2.1 (by right; left; decide),
   (C6_distance_ajustee grapheTest (-1) 0).2.2 (by decide) (by decide) (by decide)
     (by decide)⟩

/-! ## C2: the return-to-depot invariant of valid tours -/

/-- The per-arrival simulated states of the evaluator's loop: for each leg,
the arrival site, the fuel after the leg, and the load after the delivery
performed there (the load is unchanged when the arrival is the depot).  This
is the state at which §4.2 step 4 re-checks `peut_revenir_au_depot`. -/
def traceEtats (g : GrapheLivraison) :
    List (ℤ × ℤ) → ℚ → ℚ → Except ErrPy (List (ℤ × ℚ × ℚ))
  | [], _, _ => .ok []
  | tron :: rest, carburant, charge =>
    match g.distance_ajustee tron.1 tron.2 with
    | .error e => .error e
    | .ok distance =>
      match traceEtats g rest
          (carburant - g.consommation_carburant distance (g.camion.poids_actuel charge))
          (if tron.2 ≠ 0 then charge - g.quantite_par_site else charge) with
      | .error e => .error e
      | .ok tr =>
        .ok ((tron.2,
              carburant - g.consommation_carburant distance (g.camion.poids_actuel charge),
              if tron.2 ≠ 0 then charge - g.quantite_par_site else charge) :: tr)

theorem simulerTroncons_trace {g : GrapheLivraison} {l : List (ℤ × ℤ)}
    {carburant charge cout : ℚ} {fin : Etat}
    (h : SolveurTSP.simulerTroncons g l (carburant, charge, cout) = .ok (.inl fin)) :
    ∃ tr, traceEtats g l carburant charge = .ok tr ∧
      ∀ e ∈ tr, e.1 ≠ 0 → g.peut_revenir_au_depot e.1 e.2.1 e.2.2 = .ok true := by
  induction l generalizing carburant charge cout with
  | nil => exact ⟨[], rfl, by simp⟩
  | cons tron rest ih =>
    unfold SolveurTSP.simulerTroncons at h
    split at h
    · simp at h
    · rename_i etat2 hetape
      unfold SolveurTSP.simulerEtape at hetape
      split at hetape
      · simp at hetape
      · rename_i distance hdist
        split at hetape
        · simp at hetape
        · split at hetape
          · rename_i hconso hnz
            split at hetape
            · simp at hetape
            · rename_i pr hpr
              split at hetape
              · rename_i hprv
                simp at hetape
                rw [← hetape] at h
                obtain ⟨tr, htr, hinv⟩ := ih h
                have htete :
                    traceEtats g (tron :: rest) carburant charge =
                      .ok ((tron.2,
                        carburant -
                          g.consommation_carburant distance (g.camion.poids_actuel charge),
                        charge - g.quantite_par_site) :: tr) := by
                  unfold traceEtats
                  rw [hdist]
                  dsimp only
                  rw [if_pos hnz, htr]
                refine ⟨_, htete, ?_⟩
                intro e he hz
                rcases List.mem_cons.mp he with he | he
                · rw [he]
                  dsimp only
                  rw [hprv] at hpr
                  exact hpr
                · exact hinv e he hz
              · simp at hetape
          · rename_i hconso hz
            simp at hetape
            rw [← hetape] at h
            obtain ⟨tr, htr, hinv⟩ := ih h
            have htete :
                traceEtats g (tron :: rest) carburant charge =
                  .ok ((tron.2,
                    carburant -
                      g.consommation_carburant distance (g.camion.poids_actuel charge),
                    charge) :: tr) := by
              unfold traceEtats
              rw [hdist]
              dsimp only
              rw [if_neg hz, htr]
            refine ⟨_, htete, ?_⟩
            intro e he hez
            rcases List.mem_cons.mp he with he | he
            · rw [he] at hez
              simp at hez
              exact absurd hez hz
            · exact hinv e he hez
    · simp at h

/-- C2: for every tour the Evaluator accepts as valid, at every non-depot
stop of the tour the predicate `peut_revenir_au_depot` holds (returns true)
in the simulated state reached immediately after deducting that stop's fixed
demand from the remaining load. -/
theorem C2_invariant_retour (g : GrapheLivraison) (t : List ℤ) (r : EvalRes)
    (h : SolveurTSP.calculer_cout_tournee g t = .ok r) (hv : r.valide = true) :
    ∃ tr, traceEtats g (SolveurTSP.troncons t) g.camion.capacite_reservoir
        ((g.n_sites : ℚ) * g.quantite_par_site) = .ok tr ∧
      ∀ e ∈ tr, e.1 ≠ 0 → g.peut_revenir_au_depot e.1 e.2.1 e.2.2 = .ok true := by
  unfold SolveurTSP.calculer_cout_tournee at h
  split at h
  · simp at h
  · split at h
    · simp at h
      rw [← h] at hv
      simp at hv
    · split at h
      · simp at h
        rw [← h] at hv
        simp at hv
      · split at h
        · simp at h
          rw [← h] at hv
          simp at hv
        · split at h
          · simp at h
          · rename_i etat hsim
            exact simulerTroncons_trace hsim
          · rename_i res hsim
            simp at h
            rw [← h] at hv
            rw [(simulerTroncons_inr hsim).2] at hv
            simp at hv

/-- Witness for C2 at the concrete valid tour [0, 1, 2, 0] of `grapheTest`. -/
theorem C2_invariant_retour_temoin :
    ∃ tr, traceEtats grapheTest (SolveurTSP.troncons [0, 1, 2, 0])
        grapheTest.camion.capacite_reservoir
        ((grapheTest.n_sites : ℚ) * grapheTest.quantite_par_site) = .ok tr ∧
      ∀ e ∈ tr, e.1 ≠ 0 →
        grapheTest.peut_revenir_au_depot e.1 e.2.1 e.2.2 = .ok true :=
  C2_invariant_retour grapheTest [0, 1, 2, 0]
    ⟨((2003 / 2000 : ℚ) : WithTop ℚ), true, .aucune⟩
    (by with_unfolding_all rfl) rfl

/-! ## C1: optimality of the Exact Solver -/

/-- A Python int is a valid non-negative index of an axis of length n. -/
def dansPlage (n : ℕ) (x : ℤ) : Prop := 0 ≤ x ∧ x < (n : ℤ)

theorem sites_a_visiter_plage {g : GrapheLivraison} {x : ℤ}
    (h : x ∈ SolveurTSP.sites_a_visiter g) : 1 ≤ x ∧ x < (g.n_total : ℤ) := by
  unfold SolveurTSP.sites_a_visiter at h
  simp only [List.mem_map, List.mem_range'] at h
  obtain ⟨k, ⟨i, hi, rfl⟩, rfl⟩ := h
  omega

theorem distance_ajustee_ok {g : GrapheLivraison} {i j : ℤ}
    (hi : dansPlage g.n_total i) (hj : dansPlage g.n_total j) :
    g.distance_ajustee i j = .ok (g.distances_ajustees i.toNat j.toNat) := by
  unfold GrapheLivraison.distance_ajustee
  rw [npIdx_ok_intervalle hi.1 hi.2, npIdx_ok_intervalle hj.1 hj.2]

theorem peut_revenir_ok {g : GrapheLivraison} {s : ℤ} {c q : ℚ}
    (hdep : g.depot = 0) (hn : 1 ≤ g.n_total) (hs : dansPlage g.n_total s) :
    ∃ b, g.peut_revenir_au_depot s c q = .ok b := by
  unfold GrapheLivraison.peut_revenir_au_depot
  rw [hdep, distance_ajustee_ok hs ⟨le_refl 0, by exact_mod_cast hn⟩]
  exact ⟨_, rfl⟩

theorem simulerTroncons_ok {g : GrapheLivraison} (hdep : g.depot = 0)
    (hn : 1 ≤ g.n_total) :
    ∀ (l : List (ℤ × ℤ)) (etat : Etat),
    (∀ uv ∈ l, dansPlage g.n_total uv.1 ∧ dansPlage g.n_total uv.2) →
    ∃ w, SolveurTSP.simulerTroncons g l etat = .ok w := by
  intro l
  induction l with
  | nil => exact fun etat _ => ⟨_, rfl⟩
  | cons tron rest ih =>
    intro etat hplage
    have h1 := hplage tron (List.mem_cons_self tron rest)
    have hetape : ∃ s, SolveurTSP.simulerEtape g etat tron = .ok s := by
      unfold SolveurTSP.simulerEtape
      rw [distance_ajustee_ok h1.1 h1.2]
      dsimp only
      split
      · exact ⟨_, rfl⟩
      · split
        · obtain ⟨b, hb⟩ := peut_revenir_ok
            (c := etat.1 - g.consommation_carburant
              (g.distances_ajustees tron.1.toNat tron.2.toNat)
              (g.camion.poids_actuel etat.2.1))
            (q := etat.2.1 - g.quantite_par_site) hdep hn h1.2
          rw [hb]
          dsimp only
          split <;> exact ⟨_, rfl⟩
        · exact ⟨_, rfl⟩
    obtain ⟨s, hs⟩ := hetape
    unfold SolveurTSP.simulerTroncons
    rw [hs]
    match s with
    | .inl etat2 => exact ih etat2 (fun uv huv => hplage uv (List.mem_cons_of_mem _ huv))
    | .inr res => exact ⟨_, rfl⟩

theorem calculer_cout_ok {g : GrapheLivraison} {t : List ℤ} (hdep : g.depot = 0)
    (hn : 1 ≤ g.n_total) (hne : t ≠ []) (ht : ∀ x ∈ t, dansPlage g.n_total x) :
    ∃ r, SolveurTSP.calculer_cout_tournee g t = .ok r := by
  unfold SolveurTSP.calculer_cout_tournee
  split
  · rename_i hvide
    rw [List.isEmpty_iff] at hvide
    exact absurd hvide hne
  · split
    · exact ⟨_, rfl⟩
    · split
      · exact ⟨_, rfl⟩
      · split
        · exact ⟨_, rfl⟩
        · have hplage : ∀ uv ∈ SolveurTSP.troncons t,
              dansPlage g.n_total uv.1 ∧ dansPlage g.n_total uv.2 := by
            intro uv huv
            have h2 := List.of_mem_zip (by exact huv :
              (uv.1, uv.2) ∈ t.zip t.tail)
            exact ⟨ht uv.1 h2.1, ht uv.2 (t.mem_of_mem_tail h2.2)⟩
          obtain ⟨w, hw⟩ := simulerTroncons_ok hdep hn (SolveurTSP.troncons t)
            (g.camion.capacite_reservoir, (g.n_sites : ℚ) * g.quantite_par_site, 0) hplage
          rw [hw]
          match w with
          | .inl etat => exact ⟨_, rfl⟩
          | .inr res => exact ⟨_, rfl⟩

theorem valide_n_total_pos {g : GrapheLivraison}
    (hex : ∃ p ∈ (SolveurTSP.sites_a_visiter g).permutations,
      ∃ r, SolveurTSP.calculer_cout_tournee g (0 :: p ++ [0]) = .ok r ∧
        r.valide = true) :
    1 ≤ g.n_total := by
  by_contra hn
  have h0 : g.n_total = 0 := by omega
  obtain ⟨p, hp, r, hr, hv⟩ := hex
  have hsites : SolveurTSP.sites_a_visiter g = [] := by
    unfold SolveurTSP.sites_a_visiter
    rw [h0]
    rfl
  rw [hsites, List.permutations_nil] at hp
  simp at hp
  rw [hp] at hr
  simp only [List.cons_append, List.nil_append] at hr
  have hd : g.distance_ajustee 0 0 = .error .indexError := by
    unfold GrapheLivraison.distance_ajustee
    rw [npIdx_erreur (by rw [h0]; norm_num)]
  have hsim : SolveurTSP.simulerTroncons g (SolveurTSP.troncons [0, 0])
      (g.camion.capacite_reservoir, (g.n_sites : ℚ) * g.quantite_par_site, 0) =
      .error .indexError := by
    show SolveurTSP.simulerTroncons g [((0 : ℤ), (0 : ℤ))] _ = _
    unfold SolveurTSP.simulerTroncons SolveurTSP.simulerEtape
    rw [show (((0 : ℤ), (0 : ℤ)).1) = (0 : ℤ) from rfl,
      show (((0 : ℤ), (0 : ℤ)).2) = (0 : ℤ) from rfl, hd]
  unfold SolveurTSP.calculer_cout_tournee at hr
  rw [if_neg (by decide), if_neg (by decide), if_neg (by decide)] at hr
  by_cases hns : ((([0, 0] : List ℤ).length : ℤ) - 2 ≠ g.n_sites)
  · rw [if_pos hns] at hr
    injection hr with h2
    rw [← h2] at hv
    simp at hv
  · rw [if_neg hns, hsim] at hr
    exact Except.noConfusion hr

/-- Invariant of the enumeration loop accumulator: either nothing retained
yet, or a depot-wrapped tour together with its exact (finite) evaluator
cost. -/
def AccInv (g : GrapheLivraison) (acc : Option (List ℤ) × WithTop ℚ) : Prop :=
  acc = (none, ⊤) ∨
  ∃ (t : List ℤ) (c : ℚ), acc = (some t, (c : WithTop ℚ)) ∧ t.head? = some 0 ∧
    t.getLast? = some 0 ∧
    SolveurTSP.calculer_cout_tournee g t = .ok ⟨(c : WithTop ℚ), true, .aucune⟩

theorem forceBruteBoucle_spec (g : GrapheLivraison) :
    ∀ (ps : List (List ℤ)) (acc : Option (List ℤ) × WithTop ℚ),
    (∀ p ∈ ps, ∃ r, SolveurTSP.calculer_cout_tournee g (0 :: p ++ [0]) = .ok r) →
    AccInv g acc →
    ∃ out, SolveurTSP.forceBruteBoucle g ps acc = .ok out ∧ AccInv g out ∧
      out.2 ≤ acc.2 ∧
      ∀ p ∈ ps, ∀ r, SolveurTSP.calculer_cout_tournee g (0 :: p ++ [0]) = .ok r →
        r.valide = true → out.2 ≤ r.cout := by
  intro ps
  induction ps with
  | nil =>
    intro acc hok hacc
    exact ⟨acc, rfl, hacc, le_refl _, by simp⟩
  | cons p rest ih =>
    intro acc hok hacc
    obtain ⟨r, hr⟩ := hok p (List.mem_cons_self p rest)
    unfold SolveurTSP.forceBruteBoucle
    rw [hr]
    dsimp only
    by_cases hcond : (r.valide = true ∧ r.cout < acc.2)
    · rw [if_pos hcond]
      have hforme := calculer_cout_forme hr
      rcases hforme with ⟨hvr, hmsg, c, hc⟩ | ⟨hvr, _⟩
      · have hacc2 : AccInv g (some (0 :: p ++ [0]), r.cout) := by
          right
          refine ⟨0 :: p ++ [0], c, by rw [hc], by simp,
            List.getLast?_concat (0 :: p), ?_⟩
          rw [← hc]
          have hre : r = ⟨r.cout, true, .aucune⟩ := by
            obtain ⟨rc, rv, rm⟩ := r
            simp at hvr hmsg ⊢
            exact ⟨hvr, hmsg⟩
          rw [← hre]
          exact hr
        obtain ⟨out, hout, hinv, hle, hmin⟩ :=
          ih _ (fun q hq => hok q (List.mem_cons_of_mem _ hq)) hacc2
        refine ⟨out, hout, hinv, le_trans hle (le_of_lt hcond.2), ?_⟩
        intro q hq r2 hr2 hv2
        rcases List.mem_cons.mp hq with hq | hq
        · rw [hq, hr] at hr2
          injection hr2 with h2
          rw [← h2]
          exact hle
        · exact hmin q hq r2 hr2 hv2
      · rw [hcond.1] at hvr
        exact absurd hvr (by simp)
    · rw [if_neg hcond]
      obtain ⟨out, hout, hinv, hle, hmin⟩ :=
        ih acc (fun q hq => hok q (List.mem_cons_of_mem _ hq)) hacc
      refine ⟨out, hout, hinv, hle, ?_⟩
      intro q hq r2 hr2 hv2
      rcases List.mem_cons.mp hq with hq | hq
      · rw [hq, hr] at hr2
        injection hr2 with h2
        have hnlt : ¬ r.cout < acc.2 := by
          intro hlt
          exact hcond ⟨by rw [h2]; exact hv2, hlt⟩
        rw [← h2]
        exact le_trans hle (le_of_not_lt hnlt)
      · exact hmin q hq r2 hr2 hv2

/-- C1: on every instance within the 10-site ceiling (with the depot stored
at index 0, as the constructor always does) on which at least one
depot-wrapped permutation of the delivery sites is accepted as valid by the
Evaluator, `force_brute` returns a tour and a finite cost such that the tour
starts and ends at the depot, re-evaluating the tour with
`calculer_cout_tournee` reproduces exactly that cost with valid = true and
an empty message, and the cost is ≤ the Evaluator's cost of every
depot-wrapped permutation of the delivery sites the Evaluator accepts as
valid. -/
theorem C1_force_brute_optimal (g : GrapheLivraison) (hdep : g.depot = 0)
    (hn : g.n_sites ≤ 10)
    (hex : ∃ p ∈ (SolveurTSP.sites_a_visiter g).permutations,
      ∃ r, SolveurTSP.calculer_cout_tournee g (0 :: p ++ [0]) = .ok r ∧
        r.valide = true) :
    ∃ (t : List ℤ) (c : ℚ), SolveurTSP.force_brute g = .ok (some t, (c : WithTop ℚ)) ∧
      t.head? = some 0 ∧ t.getLast? = some 0 ∧
      SolveurTSP.calculer_cout_tournee g t = .ok ⟨(c : WithTop ℚ), true, .aucune⟩ ∧
      ∀ p r, p.Perm (SolveurTSP.sites_a_visiter g) →
        SolveurTSP.calculer_cout_tournee g (0 :: p ++ [0]) = .ok r →
        r.valide = true → (c : WithTop ℚ) ≤ r.cout := by
  have hpos := valide_n_total_pos hex
  have hok : ∀ p ∈ (SolveurTSP.sites_a_visiter g).permutations,
      ∃ r, SolveurTSP.calculer_cout_tournee g (0 :: p ++ [0]) = .ok r := by
    intro p hp
    have hperm : p.Perm (SolveurTSP.sites_a_visiter g) := List.mem_permutations.mp hp
    apply calculer_cout_ok hdep hpos (by simp)
    intro x hx
    have h0 : dansPlage g.n_total 0 := ⟨le_refl 0, by exact_mod_cast hpos⟩
    rcases List.mem_cons.mp hx with hx | hx
    · rw [hx]; exact h0
    · rcases List.mem_append.mp hx with hx | hx
      · have := sites_a_visiter_plage (hperm.mem_iff.mp hx)
        exact ⟨by omega, this.2⟩
      · rw [List.mem_singleton.mp hx]; exact h0
  obtain ⟨out, hout, hinv, _, hmin⟩ :=
    forceBruteBoucle_spec g _ (none, ⊤) hok (Or.inl rfl)
  obtain ⟨p0, hp0, r0, hr0, hv0⟩ := hex
  have hlt : out.2 < ⊤ := by
    have h1 := hmin p0 hp0 r0 hr0 hv0
    rcases calculer_cout_forme hr0 with ⟨_, _, c0, hc0⟩ | ⟨hvf, _⟩
    · exact lt_of_le_of_lt h1 (by rw [hc0]; exact WithTop.coe_lt_top c0)
    · rw [hvf] at hv0
      exact absurd hv0 (by simp)
  rcases hinv with hnone | ⟨t, c, hacc, hh, hl, heval⟩
  · rw [hnone] at hlt
    exact absurd hlt (lt_irrefl _)
  · refine ⟨t, c, ?_, hh, hl, heval, ?_⟩
    · unfold SolveurTSP.force_brute
      rw [if_neg (by omega)]
      rw [hacc] at hout
      exact hout
    · intro p r hperm hr hv
      have hple := hmin p (List.mem_permutations.mpr hperm) r hr hv
      rw [hacc] at hple
      exact hple

/-- Witness for C1 on `grapheTest`: a valid permutation exists and the
optimal tour [0, 1, 2, 0] of cost 2003/2000 is returned. -/
theorem C1_force_brute_optimal_temoin :
    ∃ (t : List ℤ) (c : ℚ),
      SolveurTSP.force_brute grapheTest = .ok (some t, (c : WithTop ℚ)) ∧
      t.head? = some 0 ∧ t.getLast? = some 0 ∧
      SolveurTSP.calculer_cout_tournee grapheTest t =
        .ok ⟨(c : WithTop ℚ), true, .aucune⟩ ∧
      ∀ p r, p.Perm (SolveurTSP.sites_a_visiter grapheTest) →
        SolveurTSP.calculer_cout_tournee grapheTest (0 :: p ++ [0]) = .ok r →
        r.valide = true → (c : WithTop ℚ) ≤ r.cout :=
  C1_force_brute_optimal grapheTest rfl (by decide)
    ⟨[1, 2], by decide,
     ⟨((2003 / 2000 : ℚ) : WithTop ℚ), true, .aucune⟩,
     by with_unfolding_all rfl, rfl⟩

/-! ## The Greedy Solver: structure and agreement with the Evaluator -/

theorem sites_a_visiter_nodup (g : GrapheLivraison) :
    (SolveurTSP.sites_a_visiter g).Nodup := by
  unfold SolveurTSP.sites_a_visiter
  refine List.Nodup.map (fun a b hab => by exact_mod_cast hab) ?_
  exact List.nodup_range' _ _

theorem sites_a_visiter_longueur (g : GrapheLivraison) :
    (SolveurTSP.sites_a_visiter g).length = g.n_total - 1 := by
  unfold SolveurTSP.sites_a_visiter
  rw [List.length_map, List.length_range']

theorem troncons_concat {l : List ℤ} {b : ℤ} (h : l ≠ []) :
    SolveurTSP.troncons (l ++ [b]) =
      SolveurTSP.troncons l ++ [((l.getLast?).getD 0, b)] := by
  induction l with
  | nil => exact absurd rfl h
  | cons a l ih =>
    cases l with
    | nil => rfl
    | cons a2 l2 =>
      have h2 := ih (by simp)
      show (a, a2) :: SolveurTSP.troncons ((a2 :: l2) ++ [b]) = _
      rw [h2, List.getLast?_cons_cons]
      rfl

theorem simulerTroncons_append {g : GrapheLivraison} {l1 l2 : List (ℤ × ℤ)}
    {etat fin : Etat}
    (h : SolveurTSP.simulerTroncons g l1 etat = .ok (.inl fin)) :
    SolveurTSP.simulerTroncons g (l1 ++ l2) etat =
      SolveurTSP.simulerTroncons g l2 fin := by
  induction l1 generalizing etat with
  | nil =>
    simp only [SolveurTSP.simulerTroncons] at h
    injection h with h2
    injection h2 with h3
    rw [List.nil_append, h3]
  | cons tron rest ih =>
    rw [List.cons_append]
    have hstep : ∃ e2, SolveurTSP.simulerEtape g etat tron = .ok (.inl e2) ∧
        SolveurTSP.simulerTroncons g rest e2 = .ok (.inl fin) := by
      unfold SolveurTSP.simulerTroncons at h
      split at h
      · simp at h
      · rename_i etat2 he
        exact ⟨etat2, he, h⟩
      · simp at h
    obtain ⟨e2, he, h2⟩ := hstep
    conv_lhs => unfold SolveurTSP.simulerTroncons
    rw [he]
    dsimp only
    exact ih h2

theorem peut_revenir_vrai {g : GrapheLivraison} {s : ℤ} {c q : ℚ}
    (h : g.peut_revenir_au_depot s c q = .ok true) :
    ∃ d, g.distance_ajustee s g.depot = .ok d ∧
      g.consommation_carburant d (g.camion.poids_actuel q) ≤ c := by
  unfold GrapheLivraison.peut_revenir_au_depot at h
  split at h
  · simp at h
  · rename_i d hd
    injection h with h2
    rw [decide_eq_true_iff] at h2
    exact ⟨d, hd, h2⟩

theorem choisirSite_spec {g : GrapheLivraison} {courant : ℤ} {carburant charge : ℚ} :
    ∀ {l : List ℤ} {meilleur : Option (ℤ × ℚ)} {s : ℤ} {d : ℚ},
    SolveurTSP.choisirSite g courant carburant charge l meilleur = .ok (some (s, d)) →
    (s ∈ l ∧ g.distance_ajustee courant s = .ok d ∧
      g.consommation_carburant d (g.camion.poids_actuel charge) ≤ carburant ∧
      g.peut_revenir_au_depot s
        (carburant - g.consommation_carburant d (g.camion.poids_actuel charge))
        (charge - g.quantite_par_site) = .ok true) ∨
    meilleur = some (s, d) := by
  intro l
  induction l with
  | nil =>
    intro meilleur s d h
    simp only [SolveurTSP.choisirSite] at h
    injection h with h2
    exact Or.inr h2
  | cons site rest ih =>
    intro meilleur s d h
    unfold SolveurTSP.choisirSite at h
    split at h
    · simp at h
    · rename_i dist hdist
      split at h
      · rename_i hcons
        split at h
        · simp at h
        · rename_i pr hpr
          split at h
          · rename_i hprv
            rw [hprv] at hpr
            split at h
            · rcases ih h with hl | hm
              · exact .inl ⟨List.mem_cons_of_mem _ hl.1, hl.2⟩
              · injection hm with hm2
                rw [Prod.mk.injEq] at hm2
                obtain ⟨rfl, rfl⟩ := hm2
                exact .inl ⟨List.mem_cons_self _ _, hdist, hcons, hpr⟩
            · rename_i md
              split at h
              · rcases ih h with hl | hm
                · exact .inl ⟨List.mem_cons_of_mem _ hl.1, hl.2⟩
                · injection hm with hm2
                  rw [Prod.mk.injEq] at hm2
                  obtain ⟨rfl, rfl⟩ := hm2
                  exact .inl ⟨List.mem_cons_self _ _, hdist, hcons, hpr⟩
              · rcases ih h with hl | hm
                · exact .inl ⟨List.mem_cons_of_mem _ hl.1, hl.2⟩
                · exact .inr hm
          · rcases ih h with hl | hm
            · exact .inl ⟨List.mem_cons_of_mem _ hl.1, hl.2⟩
            · exact .inr hm
      · rcases ih h with hl | hm
        · exact .inl ⟨List.mem_cons_of_mem _ hl.1, hl.2⟩
        · exact .inr hm

theorem gloutonBoucle_base (g : GrapheLivraison) (hdep : g.depot = 0)
    (hwf : g.n_sites = (g.n_total : ℤ) - 1) (fuel : ℕ) (q : List ℤ)
    (carburant charge : ℚ)
    (hq : ∀ x ∈ q, x ∈ SolveurTSP.sites_a_visiter g)
    (hnodup : q.Nodup)
    (hpart : (q ++ []).Perm (SolveurTSP.sites_a_visiter g))
    (hsim : ∃ cout, SolveurTSP.simulerTroncons g (SolveurTSP.troncons (0 :: q))
      (g.camion.capacite_reservoir, (g.n_sites : ℚ) * g.quantite_par_site, 0) =
      .ok (.inl (carburant, charge, cout)))
    (hq0 : q ≠ [])
    (hret : g.peut_revenir_au_depot (((0 :: q).getLast?).getD 0) carburant charge =
      .ok true)
    (out : Option (List ℤ) × WithTop ℚ)
    (hout : SolveurTSP.gloutonBoucle g fuel (0 :: q) [] carburant charge = .ok out) :
    ∃ (t : List ℤ) (r : EvalRes), out = (some t, r.cout) ∧
      SolveurTSP.calculer_cout_tournee g t = .ok r ∧ r.valide = true ∧
      t = 0 :: (t.drop 1).dropLast ++ [0] ∧
      ((t.drop 1).dropLast).Perm (SolveurTSP.sites_a_visiter g) := by
  obtain ⟨cout, hsim⟩ := hsim
  rw [List.append_nil] at hpart
  obtain ⟨d, hd, hcons⟩ := peut_revenir_vrai hret
  rw [hdep] at hd
  -- the final leg back to the depot
  have hlegs : SolveurTSP.troncons ((0 :: q) ++ [0]) =
      SolveurTSP.troncons (0 :: q) ++ [(((0 :: q).getLast?).getD 0, 0)] :=
    troncons_concat (by simp)
  have hfinal : SolveurTSP.simulerTroncons g
      [((((0 :: q).getLast?).getD 0), (0 : ℤ))] (carburant, charge, cout) =
      .ok (.inl (carburant -
        g.consommation_carburant d (g.camion.poids_actuel charge), charge,
        cout + g.consommation_carburant d (g.camion.poids_actuel charge))) := by
    unfold SolveurTSP.simulerTroncons SolveurTSP.simulerEtape
    rw [show ((((0 :: q).getLast?).getD 0, (0 : ℤ)).1) =
      (((0 :: q).getLast?).getD 0) from rfl]
    rw [show ((((0 :: q).getLast?).getD 0, (0 : ℤ)).2) = (0 : ℤ) from rfl]
    rw [hd]
    dsimp only
    rw [if_neg (by exact not_lt.mpr hcons), if_neg (by simp)]
    rfl
  have hlen : q.length = (SolveurTSP.sites_a_visiter g).length := hpart.length_eq
  rw [sites_a_visiter_longueur] at hlen
  have hq1 : 1 ≤ q.length := by
    cases q
    · exact absurd rfl hq0
    · simp
  have hint : (((0 :: q) ++ [0]).drop 1).dropLast = q := by
    show (q ++ [0]).dropLast = q
    exact List.dropLast_concat
  have heval : SolveurTSP.calculer_cout_tournee g ((0 :: q) ++ [0]) =
      .ok ⟨((cout + g.consommation_carburant d (g.camion.poids_actuel charge) : ℚ) :
        WithTop ℚ), true, .aucune⟩ := by
    unfold SolveurTSP.calculer_cout_tournee
    rw [if_neg (by simp), if_neg (by
        rw [not_or, not_ne_iff, not_ne_iff]
        exact ⟨rfl, List.getLast?_concat (0 :: q)⟩),
      if_neg (by rw [hint]; exact not_not_intro hnodup)]
    rw [if_neg (by
      have hlong : ((0 :: q) ++ [0]).length = q.length + 2 := by simp
      rw [hlong]
      omega)]
    rw [hlegs, simulerTroncons_append hsim, hfinal]
  have hred : SolveurTSP.gloutonBoucle g fuel (0 :: q) [] carburant charge =
      (match SolveurTSP.calculer_cout_tournee g ((0 :: q) ++ [0]) with
       | .error e => .error e
       | .ok r => .ok (some ((0 :: q) ++ [0]), r.cout)) := by
    cases fuel <;> rfl
  rw [hred, heval] at hout
  dsimp only at hout
  injection hout with hout2
  refine ⟨(0 :: q) ++ [0], _, hout2.symm ▸ rfl, heval, rfl, ?_, ?_⟩
  · rw [hint]
  · rw [hint]
    exact hpart

theorem gloutonBoucle_spec (g : GrapheLivraison) (hdep : g.depot = 0)
    (hwf : g.n_sites = (g.n_total : ℤ) - 1) :
    ∀ (fuel : ℕ) (restants q : List ℤ) (carburant charge : ℚ),
    restants.length ≤ fuel →
    (∀ x ∈ q, x ∈ SolveurTSP.sites_a_visiter g) →
    q.Nodup →
    (q ++ restants).Perm (SolveurTSP.sites_a_visiter g) →
    (∃ cout, SolveurTSP.simulerTroncons g (SolveurTSP.troncons (0 :: q))
      (g.camion.capacite_reservoir, (g.n_sites : ℚ) * g.quantite_par_site, 0) =
      .ok (.inl (carburant, charge, cout))) →
    (q = [] → restants ≠ []) →
    (q ≠ [] → g.peut_revenir_au_depot (((0 :: q).getLast?).getD 0) carburant charge
      = .ok true) →
    ∀ out, SolveurTSP.gloutonBoucle g fuel (0 :: q) restants carburant charge =
      .ok out →
    out = (none, ⊤) ∨
    ∃ (t : List ℤ) (r : EvalRes), out = (some t, r.cout) ∧
      SolveurTSP.calculer_cout_tournee g t = .ok r ∧ r.valide = true ∧
      t = 0 :: (t.drop 1).dropLast ++ [0] ∧
      ((t.drop 1).dropLast).Perm (SolveurTSP.sites_a_visiter g) := by
  intro fuel
  induction fuel with
  | zero =>
    intro restants q carburant charge hfuel hq hnodup hpart hsim hq0 hret out hout
    cases restants with
    | nil =>
      exact Or.inr (gloutonBoucle_base g hdep hwf 0 q carburant charge hq hnodup
        hpart hsim (fun hqe => (hq0 hqe) rfl) (hret (fun hqe => (hq0 hqe) rfl))
        out hout)
    | cons x xs => exact absurd hfuel (by simp)
  | succ f ih =>
    intro restants q carburant charge hfuel hq hnodup hpart hsim hq0 hret out hout
    cases restants with
    | nil =>
      exact Or.inr (gloutonBoucle_base g hdep hwf (f + 1) q carburant charge hq
        hnodup hpart hsim (fun hqe => (hq0 hqe) rfl) (hret (fun hqe => (hq0 hqe) rfl))
        out hout)
    | cons x xs =>
      unfold SolveurTSP.gloutonBoucle at hout
      cases hch : SolveurTSP.choisirSite g (((0 :: q).getLast?).getD 0) carburant
          charge (x :: xs) none with
      | error e =>
        rw [hch] at hout
        simp at hout
      | ok o =>
        rw [hch] at hout
        match o, hch with
        | none, hch =>
          dsimp only at hout
          injection hout with h2
          exact Or.inl h2.symm
        | some (s, d), hch =>
          dsimp only at hout
          rcases choisirSite_spec hch with ⟨hmem, hdist, hcons, hpr⟩ | hfaux
          · have hs_sites : s ∈ SolveurTSP.sites_a_visiter g :=
              hpart.subset (List.mem_append_right q hmem)
            have h1s : 1 ≤ s := (sites_a_visiter_plage hs_sites).1
            have hs0 : s ≠ 0 := by omega
            have hnodup_pr : (q ++ (x :: xs)).Nodup :=
              (hpart.nodup_iff).mpr (sites_a_visiter_nodup g)
            have hsq : s ∉ q := by
              intro hsq
              exact (List.nodup_append.mp hnodup_pr).2.2 hsq hmem
            have hnodup2 : (q ++ [s]).Nodup :=
              List.nodup_append.mpr ⟨hnodup, List.nodup_singleton s, by
                intro a ha hb
                rw [List.mem_singleton] at hb
                rw [hb] at ha
                exact hsq ha⟩
            have hq2 : ∀ y ∈ q ++ [s], y ∈ SolveurTSP.sites_a_visiter g := by
              intro y hy
              rcases List.mem_append.mp hy with hy | hy
              · exact hq y hy
              · rw [List.mem_singleton.mp hy]
                exact hs_sites
            have hpart2 : ((q ++ [s]) ++ (x :: xs).erase s).Perm
                (SolveurTSP.sites_a_visiter g) := by
              rw [List.append_assoc]
              exact (((List.perm_cons_erase hmem).symm).append_left q).trans hpart
            have hfuel2 : ((x :: xs).erase s).length ≤ f := by
              rw [List.length_erase_of_mem hmem]
              simp only [List.length_cons] at hfuel ⊢
              omega
            obtain ⟨cout, hsim⟩ := hsim
            have hlegs : SolveurTSP.troncons ((0 :: q) ++ [s]) =
                SolveurTSP.troncons (0 :: q) ++ [(((0 :: q).getLast?).getD 0, s)] :=
              troncons_concat (by simp)
            have hstep : SolveurTSP.simulerTroncons g
                [((((0 :: q).getLast?).getD 0), s)] (carburant, charge, cout) =
                .ok (.inl (carburant -
                  g.consommation_carburant d (g.camion.poids_actuel charge),
                  charge - g.quantite_par_site,
                  cout + g.consommation_carburant d (g.camion.poids_actuel charge))) := by
              unfold SolveurTSP.simulerTroncons SolveurTSP.simulerEtape
              rw [show (((((0 :: q).getLast?).getD 0), s).1) =
                (((0 :: q).getLast?).getD 0) from rfl]
              rw [show (((((0 :: q).getLast?).getD 0), s).2) = s from rfl]
              rw [hdist]
              dsimp only
              rw [if_neg (not_lt.mpr hcons), if_pos hs0, hpr]
              dsimp only
              rw [if_pos rfl]
              rfl
            have hsim2 : ∃ cout2, SolveurTSP.simulerTroncons g
                (SolveurTSP.troncons (0 :: (q ++ [s])))
                (g.camion.capacite_reservoir,
                  (g.n_sites : ℚ) * g.quantite_par_site, 0) =
                .ok (.inl (carburant -
                  g.consommation_carburant d (g.camion.poids_actuel charge),
                  charge - g.quantite_par_site, cout2)) := by
              refine ⟨cout + g.consommation_carburant d (g.camion.poids_actuel charge), ?_⟩
              show SolveurTSP.simulerTroncons g
                (SolveurTSP.troncons ((0 :: q) ++ [s])) _ = _
              rw [hlegs, simulerTroncons_append hsim, hstep]
            have hlast : (((0 :: (q ++ [s])).getLast?).getD 0) = s := by
              show ((((0 :: q) ++ [s]).getLast?).getD 0) = s
              rw [List.getLast?_concat]
              rfl
            have hret2 : q ++ [s] ≠ [] →
                g.peut_revenir_au_depot (((0 :: (q ++ [s])).getLast?).getD 0)
                  (carburant - g.consommation_carburant d (g.camion.poids_actuel charge))
                  (charge - g.quantite_par_site) = .ok true := by
              intro _
              rw [hlast]
              exact hpr
            exact ih ((x :: xs).erase s) (q ++ [s]) _ _ hfuel2 hq2 hnodup2 hpart2
              hsim2 (fun hqe => absurd hqe (by simp)) hret2 out hout
          · exact absurd hfaux (by simp)

/-- A truck whose tank is empty (capacity 0 L). -/
def camionSansCarburant : Camion := ⟨1000, 100, 0⟩

/-- A degenerate network whose only site is the depot (no delivery sites),
with a nonzero stored depot-to-depot distance; such a 1x1 matrix passes every
check of the constructor. -/
def grapheUn : GrapheLivraison :=
  { camion := camionSansCarburant
    quantite_par_site := 10
    depot := 0
    n_total := 1
    n_sites := 0
    distances_base := matriceDe [[100]]
    facteurs_embouteillage := fun _ _ => 1
    distances_ajustees := matriceDe [[100]] }

/-- C9 (amended): on a well-formed instance (depot index 0, site count
`n_total - 1`) with at least one delivery site, whenever the greedy solver
`glouton_plus_proche` returns a non-`None` tour, that tour is a depot-wrapped
permutation of the delivery sites, the standalone evaluator accepts it as
valid with a finite cost, and the cost returned by the greedy solver is
exactly the evaluator's cost.  (Without the at-least-one-site hypothesis the
statement fails, see the counterexample.) -/
theorem C9_glouton_valide (g : GrapheLivraison) (hdep : g.depot = 0)
    (hwf : g.n_sites = (g.n_total : ℤ) - 1) (hpos : 1 ≤ g.n_sites)
    (t : List ℤ) (c : WithTop ℚ)
    (hout : SolveurTSP.glouton_plus_proche g = .ok (some t, c)) :
    ∃ r : EvalRes,
      SolveurTSP.calculer_cout_tournee g t = .ok r ∧
      r.valide = true ∧
      c = r.cout ∧
      (∃ cq : ℚ, r.cout = (cq : WithTop ℚ)) ∧
      t = 0 :: (t.drop 1).dropLast ++ [0] ∧
      ((t.drop 1).dropLast).Perm (SolveurTSP.sites_a_visiter g) := by
  have hne : SolveurTSP.sites_a_visiter g ≠ [] := by
    intro he
    have hlen := sites_a_visiter_longueur g
    rw [he] at hlen
    simp only [List.length_nil] at hlen
    omega
  have hspec := gloutonBoucle_spec g hdep hwf
    (SolveurTSP.sites_a_visiter g).length (SolveurTSP.sites_a_visiter g) []
    g.camion.capacite_reservoir ((g.n_sites : ℚ) * g.quantite_par_site)
    le_rfl (by intro x hx; exact absurd hx (List.not_mem_nil x)) List.nodup_nil
    (by rw [List.nil_append]) ⟨0, rfl⟩ (fun _ => hne) (fun h => absurd rfl h)
    (some t, c) hout
  rcases hspec with habs | ⟨t2, r, heq, heval, hval, hforme, hperm⟩
  · exact absurd habs (by simp)
  · rw [Prod.mk.injEq] at heq
    obtain ⟨h1, h2⟩ := heq
    obtain rfl := Option.some.inj h1
    refine ⟨r, heval, hval, h2, ?_, hforme, hperm⟩
    rcases calculer_cout_forme heval with ⟨_, _, hc⟩ | ⟨hf, _⟩
    · exact hc
    · rw [hval] at hf
      exact absurd hf (by simp)

/-- Witness for C9 on the 2-site network: the greedy tour [0, 1, 2, 0] is
valid with cost 2003/2000. -/
theorem C9_glouton_valide_temoin :
    ∃ r : EvalRes,
      SolveurTSP.calculer_cout_tournee grapheTest [0, 1, 2, 0] = .ok r ∧
      r.valide = true ∧
      ((2003 / 2000 : ℚ) : WithTop ℚ) = r.cout ∧
      (∃ cq : ℚ, r.cout = (cq : WithTop ℚ)) ∧
      ([0, 1, 2, 0] : List ℤ) =
        0 :: ((([0, 1, 2, 0] : List ℤ).drop 1).dropLast) ++ [0] ∧
      ((([0, 1, 2, 0] : List ℤ).drop 1).dropLast).Perm
        (SolveurTSP.sites_a_visiter grapheTest) :=
  C9_glouton_valide grapheTest rfl (by decide) (by decide) [0, 1, 2, 0]
    ((2003 / 2000 : ℚ) : WithTop ℚ) (by with_unfolding_all rfl)

/-- Counterexample to the unamended C9: on the 0-delivery-site network with an
empty tank, the greedy solver returns the non-`None` tour [0, 0] with cost ∞,
yet the evaluator marks that tour invalid (dry tank on the depot self-loop),
so "the evaluator accepts the returned tour as valid with finite cost" fails. -/
theorem C9_contre_exemple :
    SolveurTSP.glouton_plus_proche grapheUn = .ok (some [0, 0], ⊤) ∧
    SolveurTSP.calculer_cout_tournee grapheUn [0, 0] =
      .ok ⟨⊤, false, .panneSeche 0 0⟩ := by
  refine ⟨?_, ?_⟩ <;> with_unfolding_all rfl

theorem glouton_atteint (g : GrapheLivraison) (hdep : g.depot = 0)
    (hwf : g.n_sites = (g.n_total : ℤ) - 1)
    (og : Option (List ℤ)) (cg : ℚ)
    (hg : SolveurTSP.glouton_plus_proche g = .ok (og, (cg : WithTop ℚ))) :
    ∃ (p : List ℤ) (r : EvalRes), p.Perm (SolveurTSP.sites_a_visiter g) ∧
      SolveurTSP.calculer_cout_tournee g (0 :: p ++ [0]) = .ok r ∧
      r.valide = true ∧ r.cout = (cg : WithTop ℚ) := by
  by_cases hc : SolveurTSP.sites_a_visiter g = []
  · unfold SolveurTSP.glouton_plus_proche at hg
    rw [hc] at hg
    have hred : SolveurTSP.gloutonBoucle g ([] : List ℤ).length [0] []
        g.camion.capacite_reservoir ((g.n_sites : ℚ) * g.quantite_par_site) =
        (match SolveurTSP.calculer_cout_tournee g ([0] ++ [0]) with
         | .error e => .error e
         | .ok r => .ok (some ([0] ++ [0]), r.cout)) := rfl
    rw [hred] at hg
    cases heval : SolveurTSP.calculer_cout_tournee g ([0] ++ [0]) with
    | error e =>
      rw [heval] at hg
      simp at hg
    | ok r =>
      rw [heval] at hg
      dsimp only at hg
      injection hg with h2
      rw [Prod.mk.injEq] at h2
      obtain ⟨h3, h4⟩ := h2
      refine ⟨[], r, by rw [hc], heval, ?_, h4⟩
      rcases calculer_cout_forme heval with ⟨hv, _, _⟩ | ⟨hv, hctop⟩
      · exact hv
      · rw [hctop] at h4
        exact absurd h4.symm (WithTop.coe_ne_top)
  · have hspec := gloutonBoucle_spec g hdep hwf
      (SolveurTSP.sites_a_visiter g).length (SolveurTSP.sites_a_visiter g) []
      g.camion.capacite_reservoir ((g.n_sites : ℚ) * g.quantite_par_site)
      le_rfl (by intro x hx; exact absurd hx (List.not_mem_nil x)) List.nodup_nil
      (by rw [List.nil_append]) ⟨0, rfl⟩ (fun _ => hc) (fun h => absurd rfl h)
      (og, (cg : WithTop ℚ)) hg
    rcases hspec with habs | ⟨t2, r, heq, heval, hval, hforme, hperm⟩
    · rw [Prod.mk.injEq] at habs
      exact absurd habs.2 (WithTop.coe_ne_top)
    · rw [Prod.mk.injEq] at heq
      obtain ⟨h1, h2⟩ := heq
      refine ⟨(t2.drop 1).dropLast, r, hperm, by rw [← hforme]; exact heval,
        hval, h2.symm⟩

/-- C4: on every well-formed instance (depot index 0, site count `n_total - 1`)
with at most 2 delivery sites on which both solvers return a finite cost, the
brute-force cost is at most the greedy cost. -/
theorem C4_exact_domine_glouton (g : GrapheLivraison) (hdep : g.depot = 0)
    (hwf : g.n_sites = (g.n_total : ℤ) - 1) (hn0 : 0 ≤ g.n_sites)
    (hn2 : g.n_sites ≤ 2)
    (ofb og : Option (List ℤ)) (cfb cg : ℚ)
    (hfb : SolveurTSP.force_brute g = .ok (ofb, (cfb : WithTop ℚ)))
    (hg : SolveurTSP.glouton_plus_proche g = .ok (og, (cg : WithTop ℚ))) :
    cfb ≤ cg := by
  obtain ⟨p, r, hperm, heval, hval, hcout⟩ := glouton_atteint g hdep hwf og cg hg
  unfold SolveurTSP.force_brute at hfb
  rw [if_neg (by omega)] at hfb
  have hn1 : 1 ≤ g.n_total := by omega
  have hok : ∀ q ∈ (SolveurTSP.sites_a_visiter g).permutations,
      ∃ r2, SolveurTSP.calculer_cout_tournee g (0 :: q ++ [0]) = .ok r2 := by
    intro q hq
    have hperm2 : q.Perm (SolveurTSP.sites_a_visiter g) :=
      List.mem_permutations.mp hq
    apply calculer_cout_ok hdep hn1 (by simp)
    intro x hx
    have h0 : dansPlage g.n_total 0 := ⟨le_refl 0, by exact_mod_cast hn1⟩
    rcases List.mem_cons.mp hx with hx | hx
    · rw [hx]; exact h0
    · rcases List.mem_append.mp hx with hx | hx
      · have := sites_a_visiter_plage (hperm2.mem_iff.mp hx)
        exact ⟨by omega, this.2⟩
      · rw [List.mem_singleton.mp hx]; exact h0
  obtain ⟨out, hout, hinv, _, hmin⟩ :=
    forceBruteBoucle_spec g _ (none, ⊤) hok (Or.inl rfl)
  rw [hout] at hfb
  injection hfb with h2
  have hle := hmin p (List.mem_permutations.mpr hperm) r heval hval
  rw [h2, hcout] at hle
  exact WithTop.coe_le_coe.mp hle

/-- Witness for C4 on the 2-site network: both solvers return cost 2003/2000
and the inequality holds with equality. -/
theorem C4_exact_domine_glouton_temoin : (2003 / 2000 : ℚ) ≤ (2003 / 2000 : ℚ) :=
  C4_exact_domine_glouton grapheTest rfl (by decide) (by decide) (by decide)
    (some [0, 1, 2, 0]) (some [0, 1, 2, 0]) (2003 / 2000) (2003 / 2000)
    (by with_unfolding_all rfl) (by with_unfolding_all rfl)

theorem mr_bind_inv {α β : Type} {m : MR α} {f : α → MR β} {a a2 : Alea}
    {v : β} (h : (m >>= f) a = (.ok v, a2)) :
    ∃ w a1, m a = (.ok w, a1) ∧ f w a1 = (.ok v, a2) := by
  rw [mr_bind_eval] at h
  cases hm : m a with
  | mk r a1 =>
    rw [hm] at h
    cases r with
    | ok w =>
      dsimp only at h
      exact ⟨w, a1, rfl, h⟩
    | error e =>
      dsimp only at h
      simp at h

theorem boucleGenerations_spec (g : GrapheLivraison) (tp : ℕ) (tm : ℚ) (ne : ℕ) :
    ∀ (nb : ℕ) (population : List (List ℤ)) (mc : WithTop ℚ)
      (mt : Option (List ℤ)) (hist : List (WithTop ℚ)) (a a2 : Alea)
      (best : Option (List ℤ)) (cost : WithTop ℚ) (trace : List (WithTop ℚ)),
    (SolveurTSP.boucleGenerations g tp tm ne nb population mc mt hist) a =
      (.ok (best, cost, trace), a2) →
    ∃ ext, trace = hist ++ ext ∧ ext.length = nb ∧
      List.Chain' (fun x y => y ≤ x) (mc :: ext) ∧
      ((ext = [] ∧ cost = mc) ∨ ext.getLast? = some cost) := by
  intro nb
  induction nb with
  | zero =>
    intro population mc mt hist a a2 best cost trace h
    rw [show SolveurTSP.boucleGenerations g tp tm ne 0 population mc mt hist =
      pure (mt, mc, hist) from rfl, mr_pure_eval] at h
    rw [Prod.mk.injEq] at h
    obtain ⟨h1, _⟩ := h
    injection h1 with h1
    rw [Prod.mk.injEq] at h1
    obtain ⟨_, h1⟩ := h1
    rw [Prod.mk.injEq] at h1
    obtain ⟨hc, ht⟩ := h1
    refine ⟨[], by rw [← ht, List.append_nil], rfl, ?_, .inl ⟨rfl, hc.symm⟩⟩
    exact List.chain'_singleton mc
  | succ nb ih =>
    intro population mc mt hist a a2 best cost trace h
    unfold SolveurTSP.boucleGenerations at h
    obtain ⟨pe, a1, hpe, h⟩ := mr_bind_inv h
    cases htr : SolveurTSP.triStable (fun y x => decide (x.fitness < y.fitness)) pe with
    | nil =>
      rw [htr] at h
      dsimp only at h
      rw [mr_lever_eval] at h
      simp at h
    | cons mg reste =>
      rw [htr] at h
      dsimp only at h
      by_cases hcond : (mg.valide = true ∧ mg.cout < mc)
      · rw [if_pos hcond] at h
        obtain ⟨nouvelle, a3, hnv, h⟩ := mr_bind_inv h
        obtain ⟨ext, htrace, hlen, hchain, hlast⟩ := ih nouvelle mg.cout
          (some mg.tournee) (hist ++ [mg.cout]) a3 a2 best cost trace h
        refine ⟨mg.cout :: ext, ?_, by simp [hlen], ?_, ?_⟩
        · rw [htrace, List.append_assoc]
          rfl
        · exact List.chain'_cons.mpr ⟨le_of_lt hcond.2, hchain⟩
        · rcases hlast with ⟨he, hc⟩ | hl
          · right
            rw [he, hc]
            rfl
          · right
            cases ext with
            | nil => simp at hl
            | cons e ext2 => rw [List.getLast?_cons_cons]; exact hl
      · rw [if_neg hcond] at h
        obtain ⟨nouvelle, a3, hnv, h⟩ := mr_bind_inv h
        obtain ⟨ext, htrace, hlen, hchain, hlast⟩ := ih nouvelle mc
          mt (hist ++ [mc]) a3 a2 best cost trace h
        refine ⟨mc :: ext, ?_, by simp [hlen], ?_, ?_⟩
        · rw [htrace, List.append_assoc]
          rfl
        · exact List.chain'_cons.mpr ⟨le_refl mc, hchain⟩
        · rcases hlast with ⟨he, hc⟩ | hl
          · right
            rw [he, hc]
            rfl
          · right
            cases ext with
            | nil => simp at hl
            | cons e ext2 => rw [List.getLast?_cons_cons]; exact hl

/-- C8: every successful run of the genetic solver with generation count `nbg`
returns a per-generation best-cost trace of exactly `nbg` entries that is
monotonically non-increasing (each later entry is at most the earlier one),
and the returned best cost equals the last entry of the trace whenever the
trace is nonempty. -/
theorem C8_trace_genetique (g : GrapheLivraison) (tp nbg : ℕ) (tm te : ℚ)
    (a a2 : Alea) (best : Option (List ℤ)) (cost : WithTop ℚ)
    (trace : List (WithTop ℚ))
    (h : (SolveurTSP.algorithme_genetique g tp nbg tm te) a =
      (.ok (best, cost, trace), a2)) :
    trace.length = nbg ∧
    List.Chain' (fun x y => y ≤ x) trace ∧
    (trace ≠ [] → trace.getLast? = some cost) := by
  unfold SolveurTSP.algorithme_genetique at h
  obtain ⟨pop, a1, hpop, h⟩ := mr_bind_inv h
  obtain ⟨ext, htrace, hlen, hchain, hlast⟩ := boucleGenerations_spec g tp tm
    ((⌊(tp : ℚ) * te⌋).toNat) nbg pop ⊤ none [] a1 a2 best cost trace h
  rw [List.nil_append] at htrace
  subst htrace
  refine ⟨hlen, hchain.tail, ?_⟩
  intro hne
  rcases hlast with ⟨he, _⟩ | hl
  · exact absurd he hne
  · exact hl

/-- Witness for C8: one generation on the 2-site network from the all-zero
random stream yields the trace [2003/2000], of length 1, non-increasing, whose
last entry is the returned cost. -/
theorem C8_trace_genetique_temoin :
    ([((2003 / 2000 : ℚ) : WithTop ℚ)].length = 1) ∧
    List.Chain' (fun x y => y ≤ x) [((2003 / 2000 : ℚ) : WithTop ℚ)] ∧
    (([((2003 / 2000 : ℚ) : WithTop ℚ)] : List (WithTop ℚ)) ≠ [] →
      ([((2003 / 2000 : ℚ) : WithTop ℚ)]).getLast? =
        some ((2003 / 2000 : ℚ) : WithTop ℚ)) :=
  C8_trace_genetique grapheTest 3 1 0 0 aleaZero ⟨fun _ => 0, 38⟩
    (some [0, 1, 2, 0]) ((2003 / 2000 : ℚ) : WithTop ℚ)
    [((2003 / 2000 : ℚ) : WithTop ℚ)]
    (by set_option maxRecDepth 100000 in with_unfolding_all rfl)

theorem mr_randint_bornes {lo hi : ℤ} {a a2 : Alea} {v : ℤ}
    (h : MR.randint lo hi a = (.ok v, a2)) : lo ≤ v ∧ v ≤ hi := by
  unfold MR.randint at h
  split at h
  · rw [mr_lever_eval] at h
    simp at h
  · rename_i hle
    obtain ⟨x, a1, hx, h⟩ := mr_bind_inv h
    rw [mr_pure_eval] at h
    rw [Prod.mk.injEq] at h
    obtain ⟨h1, _⟩ := h
    injection h1 with h1
    subst h1
    have hpos : 0 < (hi - lo + 1).toNat := by omega
    have hlt : (x % (hi - lo + 1).toNat) < (hi - lo + 1).toNat := Nat.mod_lt _ hpos
    constructor <;> omega

theorem mr_deuxIndices_bornes {n : ℕ} {a a2 : Alea} {i j : ℕ}
    (h : MR.deuxIndices n a = (.ok (i, j), a2)) : i < n ∧ j < n ∧ i ≠ j := by
  unfold MR.deuxIndices at h
  split at h
  · rw [mr_lever_eval] at h
    simp at h
  · rename_i hn
    obtain ⟨x, a1, hx, h⟩ := mr_bind_inv h
    obtain ⟨y, a3, hy, h⟩ := mr_bind_inv h
    rw [mr_pure_eval] at h
    rw [Prod.mk.injEq] at h
    obtain ⟨h1, _⟩ := h
    injection h1 with h1
    rw [Prod.mk.injEq] at h1
    obtain ⟨hi, hj⟩ := h1
    have hxn : x % n < n := Nat.mod_lt _ (by omega)
    have hyn : y % (n - 1) < n - 1 := Nat.mod_lt _ (by omega)
    subst hi
    subst hj
    by_cases hc : y % (n - 1) < x % n
    · rw [if_pos hc]
      exact ⟨hxn, by omega, by omega⟩
    · rw [if_neg hc]
      exact ⟨hxn, by omega, by omega⟩

theorem chercherLibre_libre : ∀ (fuel : ℕ) (enfant : List (Option ℤ)) (pos p : ℕ),
    SolveurTSP.chercherLibre enfant pos fuel = .ok p →
    enfant.getD p none = none := by
  intro fuel
  induction fuel with
  | zero =>
    intro enfant pos p h
    exact absurd h (by simp [SolveurTSP.chercherLibre])
  | succ f ih =>
    intro enfant pos p h
    have h2 : (match enfant.getD (if pos ≥ enfant.length then 0 else pos) none with
        | none => Except.ok (if pos ≥ enfant.length then 0 else pos)
        | some _ => SolveurTSP.chercherLibre enfant
            ((if pos ≥ enfant.length then 0 else pos) + 1) f) = Except.ok p := h
    cases hg : enfant.getD (if pos ≥ enfant.length then 0 else pos) none with
    | none =>
      rw [hg] at h2
      injection h2 with h2
      rw [← h2]
      exact hg
    | some v =>
      rw [hg] at h2
      exact ih enfant _ p h2

theorem mem_valeurs {l : List (Option ℤ)} {x : ℤ} :
    x ∈ l.filterMap id ↔ some x ∈ l := by
  rw [List.mem_filterMap]
  constructor
  · rintro ⟨a, ha, hax⟩
    have hax2 : a = some x := hax
    rw [hax2] at ha
    exact ha
  · intro hx
    exact ⟨some x, hx, rfl⟩

theorem valeurs_set {enfant : List (Option ℤ)} {i : ℕ} {v : ℤ}
    (hi : i < enfant.length) (hnone : enfant.getD i none = none) :
    ((enfant.set i (some v)).filterMap id).Perm (v :: enfant.filterMap id) := by
  have hidx : enfant[i] = none := by
    rw [List.getD_eq_getElem enfant none hi] at hnone
    exact hnone
  rw [List.set_eq_take_cons_drop (some v) hi]
  conv_rhs =>
    rw [← List.take_append_drop i enfant, List.drop_eq_getElem_cons hi, hidx]
  rw [List.filterMap_append, List.filterMap_append,
      List.filterMap_cons_some (show id (some v) = some v from rfl),
      List.filterMap_cons_none (show id (none : Option ℤ) = none from rfl)]
  exact List.perm_middle

theorem valeursToutes_spec : ∀ (l : List (Option ℤ)) (v : List ℤ),
    SolveurTSP.valeursToutes l = some v →
    l.filterMap id = v ∧ v.length = l.length := by
  intro l
  induction l with
  | nil =>
    intro v h
    injection h with h
    rw [← h]
    exact ⟨rfl, rfl⟩
  | cons o l ih =>
    intro v h
    cases o with
    | none => exact absurd h (by simp [SolveurTSP.valeursToutes])
    | some x =>
      unfold SolveurTSP.valeursToutes at h
      cases hvt : SolveurTSP.valeursToutes l with
      | none =>
        rw [hvt] at h
        simp at h
      | some v2 =>
        rw [hvt, Option.map_some'] at h
        injection h with h
        obtain ⟨h1, h2⟩ := ih v2 hvt
        rw [← h]
        constructor
        · rw [List.filterMap_cons_some (show id (some x) = some x from rfl), h1]
        · simp [h2]

theorem remplirEnfant_spec :
    ∀ (reste : List ℤ) (enfant : List (Option ℤ)) (pos : ℕ)
      (rempli : List (Option ℤ) × ℕ),
    SolveurTSP.remplirEnfant reste enfant pos = .ok rempli →
    rempli.1.length = enfant.length ∧
    ((enfant.filterMap id).Nodup → (rempli.1.filterMap id).Nodup) ∧
    (∀ x ∈ rempli.1.filterMap id, x ∈ enfant.filterMap id ∨ x ∈ reste) := by
  intro reste
  induction reste with
  | nil =>
    intro enfant pos rempli h
    injection h with h
    rw [← h]
    exact ⟨rfl, fun hn => hn, fun x hx => .inl hx⟩
  | cons site reste ih =>
    intro enfant pos rempli h
    unfold SolveurTSP.remplirEnfant at h
    by_cases hmem : (some site) ∈ enfant
    · rw [if_pos hmem] at h
      obtain ⟨hlen, hnd, hsub⟩ := ih enfant pos rempli h
      exact ⟨hlen, hnd,
        fun x hx => (hsub x hx).imp_right (List.mem_cons_of_mem site)⟩
    · rw [if_neg hmem] at h
      obtain ⟨i, hi, h⟩ := exBind_eq_ok.mp h
      have hnone := chercherLibre_libre _ enfant pos i hi
      by_cases hilen : i < enfant.length
      · have hperm := valeurs_set (v := site) hilen hnone
        obtain ⟨hlen, hnd, hsub⟩ := ih _ i rempli h
        refine ⟨by rw [hlen, List.length_set], ?_, ?_⟩
        · intro hn
          apply hnd
          rw [hperm.nodup_iff]
          exact List.nodup_cons.mpr ⟨fun hc => hmem (mem_valeurs.mp hc), hn⟩
        · intro x hx
          rcases hsub x hx with hx2 | hx2
          · rcases List.mem_cons.mp (hperm.subset hx2) with h3 | h3
            · exact .inr (h3 ▸ List.mem_cons_self site reste)
            · exact .inl h3
          · exact .inr (List.mem_cons_of_mem site hx2)
      · rw [List.set_eq_of_length_le (by omega)] at h
        obtain ⟨hlen, hnd, hsub⟩ := ih enfant i rempli h
        exact ⟨hlen, hnd,
          fun x hx => (hsub x hx).imp_right (List.mem_cons_of_mem site)⟩

theorem filterMap_si (g : ℕ → ℤ) (p : ℕ → Prop) [DecidablePred p] :
    ∀ l : List ℕ, List.filterMap (fun i => if p i then some (g i) else none) l =
      (l.filter (fun i => decide (p i))).map g := by
  intro l
  induction l with
  | nil => rfl
  | cons x l ih =>
    rw [List.filter_cons]
    by_cases hx : p x
    · rw [List.filterMap_cons_some (by rw [if_pos hx]), if_pos (by simpa using hx),
        ih, List.map_cons]
    · rw [List.filterMap_cons_none (by rw [if_neg hx]), if_neg (by simpa using hx),
        ih]

theorem perm_de_couverture {l s : List ℤ} (hl : l.Nodup) (hs : s.Nodup)
    (hsub : ∀ x ∈ l, x ∈ s) (hlen : l.length = s.length) : l.Perm s := by
  apply List.perm_of_nodup_nodup_toFinset_eq hl hs
  apply Finset.eq_of_subset_of_card_le
  · intro x hx
    rw [List.mem_toFinset] at hx ⊢
    exact hsub x hx
  · rw [List.toFinset_card_of_nodup hl, List.toFinset_card_of_nodup hs, hlen]

theorem echanger_comm (l : List ℤ) {i j : ℕ} (hij : i ≠ j) :
    SolveurTSP.echangerPositions l i j = SolveurTSP.echangerPositions l j i := by
  unfold SolveurTSP.echangerPositions
  exact List.set_comm _ _ l hij

theorem echanger_zero_perm (a : ℤ) (l : List ℤ) (j : ℕ) (hj : j < l.length) :
    (SolveurTSP.echangerPositions (a :: l) 0 (j + 1)).Perm (a :: l) := by
  have he : SolveurTSP.echangerPositions (a :: l) 0 (j + 1) =
      l.getD j 0 :: l.set j a := by
    unfold SolveurTSP.echangerPositions
    rw [List.getD_cons_succ, List.getD_cons_zero, List.set_cons_zero,
      List.set_cons_succ]
  rw [he, List.getD_eq_getElem l 0 hj, List.set_eq_take_cons_drop a hj]
  have h1 : (l[j] :: (l.take j ++ a :: l.drop (j + 1))).Perm
      (l[j] :: a :: (l.take j ++ l.drop (j + 1))) :=
    List.Perm.cons _ List.perm_middle
  have h2 : (l[j] :: a :: (l.take j ++ l.drop (j + 1))).Perm
      (a :: l[j] :: (l.take j ++ l.drop (j + 1))) := List.Perm.swap a (l[j]) _
  have h3 : (a :: l[j] :: (l.take j ++ l.drop (j + 1))).Perm
      (a :: (l.take j ++ l[j] :: l.drop (j + 1))) :=
    List.Perm.cons _ List.perm_middle.symm
  have h4 : l.take j ++ l[j] :: l.drop (j + 1) = l := by
    rw [← List.drop_eq_getElem_cons hj, List.take_append_drop]
  rw [h4] at h3
  exact (h1.trans h2).trans h3

theorem echanger_perm : ∀ (l : List ℤ) (i j : ℕ), i < l.length → j < l.length →
    (SolveurTSP.echangerPositions l i j).Perm l := by
  intro l
  induction l with
  | nil =>
    intro i j hi _
    exact absurd hi (by simp)
  | cons a l ih =>
    intro i j hi hj
    match i, j with
    | 0, 0 =>
      have he : SolveurTSP.echangerPositions (a :: l) 0 0 = a :: l := rfl
      rw [he]
    | 0, j + 1 =>
      exact echanger_zero_perm a l j (by simpa using hj)
    | i + 1, 0 =>
      rw [echanger_comm _ (Nat.succ_ne_zero i)]
      exact echanger_zero_perm a l i (by simpa using hi)
    | i + 1, j + 1 =>
      have he : SolveurTSP.echangerPositions (a :: l) (i + 1) (j + 1) =
          a :: SolveurTSP.echangerPositions l i j := by
        unfold SolveurTSP.echangerPositions
        rw [List.getD_cons_succ, List.getD_cons_succ, List.set_cons_succ,
          List.set_cons_succ]
      rw [he]
      exact (ih i j (by simpa using hi) (by simpa using hj)).cons a

theorem echanger_enveloppe (q : List ℤ) (i j : ℕ) (hi : i < q.length)
    (hj : j < q.length) :
    SolveurTSP.echangerPositions ((0 : ℤ) :: q ++ [0]) (1 + i) (1 + j) =
      0 :: (SolveurTSP.echangerPositions q i j ++ [0]) := by
  unfold SolveurTSP.echangerPositions
  rw [Nat.add_comm 1 i, Nat.add_comm 1 j, List.cons_append]
  rw [List.getD_cons_succ, List.getD_cons_succ]
  rw [List.getD_append q [0] 0 j hj, List.getD_append q [0] 0 i hi]
  rw [List.set_cons_succ, List.set_append_left _ _ hi]
  rw [List.set_cons_succ,
    List.set_append_left _ _ (by rw [List.length_set]; exact hj)]

theorem renverser_cons (x : ℤ) (l : List ℤ) (d f : ℕ) :
    SolveurTSP.renverserSegment (x :: l) (d + 1) (f + 1) =
      x :: SolveurTSP.renverserSegment l d f := by
  unfold SolveurTSP.renverserSegment
  rw [List.take_succ_cons, List.drop_succ_cons, List.drop_succ_cons,
    Nat.succ_sub_succ]
  simp only [List.cons_append, List.append_assoc]

theorem renverser_concat (l : List ℤ) (z : ℤ) (d f : ℕ) (hd : d ≤ f)
    (hf : f ≤ l.length) :
    SolveurTSP.renverserSegment (l ++ [z]) d f =
      SolveurTSP.renverserSegment l d f ++ [z] := by
  unfold SolveurTSP.renverserSegment
  rw [List.take_append_of_le_length (le_trans hd hf),
    List.drop_append_of_le_length (le_trans hd hf),
    List.drop_append_of_le_length hf,
    List.take_append_of_le_length (by rw [List.length_drop]; omega)]
  simp only [List.append_assoc]

theorem renverser_perm (l : List ℤ) (d f : ℕ) (hd : d ≤ f) :
    (SolveurTSP.renverserSegment l d f).Perm l := by
  unfold SolveurTSP.renverserSegment
  rw [List.append_assoc]
  conv_rhs => rw [← List.take_append_drop d l]
  apply List.Perm.append_left
  conv_rhs => rw [← List.take_append_drop (f - d) (l.drop d)]
  have hdd : (l.drop d).drop (f - d) = l.drop f := by
    rw [List.drop_drop]
    congr 1
    omega
  rw [hdd]
  exact List.Perm.append_right _ (List.reverse_perm _)

theorem inserer_perm (l : List ℤ) (p : ℕ) (v : ℤ) :
    (SolveurTSP.insererPosition l p v).Perm (v :: l) := by
  unfold SolveurTSP.insererPosition
  have h1 : (l.take p ++ v :: l.drop p).Perm (v :: (l.take p ++ l.drop p)) :=
    List.perm_middle
  rw [List.take_append_drop] at h1
  exact h1

theorem inserer_cons (x : ℤ) (l : List ℤ) (p : ℕ) (v : ℤ) :
    SolveurTSP.insererPosition (x :: l) (p + 1) v =
      x :: SolveurTSP.insererPosition l p v := by
  unfold SolveurTSP.insererPosition
  rw [List.take_succ_cons, List.drop_succ_cons, List.cons_append]

theorem inserer_concat (l : List ℤ) (z : ℤ) (p : ℕ) (v : ℤ) (hp : p ≤ l.length) :
    SolveurTSP.insererPosition (l ++ [z]) p v =
      SolveurTSP.insererPosition l p v ++ [z] := by
  unfold SolveurTSP.insererPosition
  rw [List.take_append_of_le_length hp, List.drop_append_of_le_length hp]
  simp only [List.cons_append, List.append_assoc]

theorem retirer_enveloppe (q : List ℤ) (i : ℕ) (hi : i < q.length) :
    SolveurTSP.retirerPosition ((0 : ℤ) :: q ++ [0]) (i + 1) =
      (q.getD i 0, 0 :: ((q.take i ++ q.drop (i + 1)) ++ [0])) := by
  unfold SolveurTSP.retirerPosition
  rw [List.cons_append, List.getD_cons_succ, List.getD_append q [0] 0 i hi,
    List.take_succ_cons, List.drop_succ_cons,
    List.take_append_of_le_length (le_of_lt hi),
    List.drop_append_of_le_length hi, List.cons_append, List.append_assoc]

theorem retirer_membre_perm (q : List ℤ) (i : ℕ) (hi : i < q.length) :
    q.Perm (q.getD i 0 :: (q.take i ++ q.drop (i + 1))) := by
  conv_lhs => rw [← List.take_append_drop i q, List.drop_eq_getElem_cons hi]
  rw [List.getD_eq_getElem q 0 hi]
  exact List.perm_middle

theorem muter_forme (s1 : List ℤ) (tm : ℚ) (b b2 : Alea) (m : List ℤ)
    (h : (SolveurTSP.muter tm ((0 : ℤ) :: s1 ++ [0])) b = (.ok m, b2)) :
    ∃ e, m = 0 :: e ++ [0] ∧ e.Perm s1 := by
  unfold SolveurTSP.muter at h
  obtain ⟨r, b1, hr, h⟩ := mr_bind_inv h
  by_cases hc1 : r ≥ tm
  · rw [if_pos hc1, mr_pure_eval, Prod.mk.injEq] at h
    obtain ⟨h1, _⟩ := h
    injection h1 with h1
    exact ⟨s1, h1.symm, List.Perm.refl s1⟩
  · rw [if_neg hc1] at h
    obtain ⟨st, b3, hst, h⟩ := mr_bind_inv h
    by_cases hc2 : st < 2 / 5
    · rw [if_pos hc2] at h
      obtain ⟨ij, b4, hij, h⟩ := mr_bind_inv h
      rw [mr_pure_eval, Prod.mk.injEq] at h
      obtain ⟨h1, _⟩ := h
      injection h1 with h1
      obtain ⟨i, j⟩ := ij
      dsimp only at h1
      have hL : ((0 : ℤ) :: s1 ++ [0]).length - 2 = s1.length := by simp
      rw [hL] at hij
      obtain ⟨hi, hj, _⟩ := mr_deuxIndices_bornes hij
      refine ⟨SolveurTSP.echangerPositions s1 i j, ?_, echanger_perm s1 i j hi hj⟩
      rw [← h1, echanger_enveloppe s1 i j hi hj, List.cons_append]
    · rw [if_neg hc2] at h
      by_cases hc3 : st < 7 / 10
      · rw [if_pos hc3] at h
        obtain ⟨debut, b4, hdeb, h⟩ := mr_bind_inv h
        obtain ⟨fin, b5, hfin, h⟩ := mr_bind_inv h
        rw [mr_pure_eval, Prod.mk.injEq] at h
        obtain ⟨h1, _⟩ := h
        injection h1 with h1
        obtain ⟨hd1, hd2⟩ := mr_randint_bornes hdeb
        obtain ⟨hf1, hf2⟩ := mr_randint_bornes hfin
        have hLlen : ((0 : ℤ) :: s1 ++ [0]).length = s1.length + 2 := by simp
        rw [hLlen] at hd2 hf2
        obtain ⟨d2, hd2'⟩ : ∃ d2, debut.toNat = d2 + 1 := ⟨debut.toNat - 1, by omega⟩
        obtain ⟨f2, hf2'⟩ : ∃ f2, fin.toNat = f2 + 1 := ⟨fin.toNat - 1, by omega⟩
        have hdf : d2 ≤ f2 := by omega
        have hfl : f2 ≤ s1.length := by omega
        rw [List.cons_append, hd2', hf2', renverser_cons,
          renverser_concat s1 0 d2 f2 hdf hfl] at h1
        refine ⟨SolveurTSP.renverserSegment s1 d2 f2, ?_,
          renverser_perm s1 d2 f2 hdf⟩
        rw [← h1, List.cons_append]
      · rw [if_neg hc3] at h
        by_cases hc4 : ((0 : ℤ) :: s1 ++ [0]).length > 3
        · rw [if_pos hc4] at h
          obtain ⟨idx, b4, hidx, h⟩ := mr_bind_inv h
          obtain ⟨np, b5, hnp, h⟩ := mr_bind_inv h
          rw [mr_pure_eval, Prod.mk.injEq] at h
          obtain ⟨h1, _⟩ := h
          injection h1 with h1
          obtain ⟨hi1, hi2⟩ := mr_randint_bornes hidx
          have hLlen : ((0 : ℤ) :: s1 ++ [0]).length = s1.length + 2 := by simp
          rw [hLlen] at hi2 hc4
          obtain ⟨i2, hi2'⟩ : ∃ i2, idx.toNat = i2 + 1 := ⟨idx.toNat - 1, by omega⟩
          have hival : i2 < s1.length := by omega
          have hsr : SolveurTSP.retirerPosition ((0 : ℤ) :: s1 ++ [0]) idx.toNat =
              (s1.getD i2 0, 0 :: ((s1.take i2 ++ s1.drop (i2 + 1)) ++ [0])) := by
            rw [hi2']
            exact retirer_enveloppe s1 i2 hival
          rw [hsr] at hnp h1
          dsimp only at hnp h1
          obtain ⟨hp1, hp2⟩ := mr_randint_bornes hnp
          have hqrem : (s1.take i2 ++ s1.drop (i2 + 1)).length + 1 = s1.length := by
            rw [List.length_append, List.length_take, List.length_drop]
            omega
          have hlnp : ((0 : ℤ) :: ((s1.take i2 ++ s1.drop (i2 + 1)) ++ [0])).length =
              s1.length + 1 := by
            simp only [List.length_cons, List.length_append, List.length_nil,
              List.length_take, List.length_drop]
            omega
          rw [hlnp] at hp2
          obtain ⟨p2, hp2'⟩ : ∃ p2, np.toNat = p2 + 1 := ⟨np.toNat - 1, by omega⟩
          have hpval : p2 ≤ (s1.take i2 ++ s1.drop (i2 + 1)).length := by omega
          rw [hp2', inserer_cons,
            inserer_concat (s1.take i2 ++ s1.drop (i2 + 1)) 0 p2 _ hpval] at h1
          refine ⟨SolveurTSP.insererPosition (s1.take i2 ++ s1.drop (i2 + 1)) p2
            (s1.getD i2 0), ?_, ?_⟩
          · rw [← h1, List.cons_append]
          · exact (inserer_perm _ p2 _).trans (retirer_membre_perm s1 i2 hival).symm
        · rw [if_neg hc4, mr_pure_eval, Prod.mk.injEq] at h
          obtain ⟨h1, _⟩ := h
          injection h1 with h1
          exact ⟨s1, h1.symm, List.Perm.refl s1⟩

/-- Evaluation rule of MR.deExcept. -/
theorem mr_deExcept_eval {α : Type} (r : Except ErrPy α) (a : Alea) :
    MR.deExcept r a = (r, a) := rfl

theorem croiser_coeur (s1 s2 : List ℤ) (hnd : s1.Nodup) (hperm : s2.Perm s1)
    (d f : ℕ) (rempli : List (Option ℤ) × ℕ) (enfant : List ℤ)
    (hre : SolveurTSP.remplirEnfant s2 ((List.range s1.length).map
      (fun i => if d ≤ i ∧ i < f then some (s1.getD i 0) else none)) f =
      .ok rempli)
    (hval : SolveurTSP.valeursToutes rempli.1 = some enfant) :
    enfant.Perm s1 := by
  obtain ⟨hlen, hnd2, hsub⟩ := remplirEnfant_spec s2 _ f rempli hre
  obtain ⟨hfm, hlen2⟩ := valeursToutes_spec rempli.1 enfant hval
  have hv0 : ((List.range s1.length).map
      (fun i => if d ≤ i ∧ i < f then some (s1.getD i 0) else none)).filterMap id =
      ((List.range s1.length).filter
        (fun i => decide (d ≤ i ∧ i < f))).map (fun i => s1.getD i 0) := by
    rw [List.filterMap_map]
    have hcomp : (id ∘ fun i =>
        if d ≤ i ∧ i < f then some (s1.getD i 0) else none) =
        (fun i => if d ≤ i ∧ i < f then some (s1.getD i 0) else none) := rfl
    rw [hcomp]
    exact filterMap_si _ _ _
  have hnd0 : (((List.range s1.length).map
      (fun i => if d ≤ i ∧ i < f then some (s1.getD i 0) else none)).filterMap
      id).Nodup := by
    rw [hv0]
    apply List.Nodup.map_on
    · intro x hx y hy hxy
      have hxr : x < s1.length := List.mem_range.mp (List.mem_filter.mp hx).1
      have hyr : y < s1.length := List.mem_range.mp (List.mem_filter.mp hy).1
      rw [List.getD_eq_getElem s1 0 hxr, List.getD_eq_getElem s1 0 hyr] at hxy
      exact (hnd.getElem_inj_iff).mp hxy
    · exact (List.nodup_range s1.length).filter _
  have hsub0 : ∀ x ∈ ((List.range s1.length).map
      (fun i => if d ≤ i ∧ i < f then some (s1.getD i 0) else none)).filterMap id,
      x ∈ s1 := by
    rw [hv0]
    intro x hx
    obtain ⟨i, hi, rfl⟩ := List.mem_map.mp hx
    have hir : i < s1.length := List.mem_range.mp (List.mem_filter.mp hi).1
    rw [List.getD_eq_getElem s1 0 hir]
    exact List.getElem_mem hir
  have hend : enfant.Nodup := by
    rw [← hfm]
    exact hnd2 hnd0
  have hesub : ∀ x ∈ enfant, x ∈ s1 := by
    intro x hx
    rw [← hfm] at hx
    rcases hsub x hx with hx2 | hx2
    · exact hsub0 x hx2
    · exact hperm.subset hx2
  have helen : enfant.length = s1.length := by
    rw [hlen2, hlen, List.length_map, List.length_range]
  exact perm_de_couverture hend hnd hesub helen

theorem croiser_forme (s1 s2 : List ℤ) (hnd : s1.Nodup) (hperm : s2.Perm s1)
    (a a2 : Alea) (c : List ℤ)
    (h : (SolveurTSP.croiser ((0 : ℤ) :: s1 ++ [0]) ((0 : ℤ) :: s2 ++ [0])) a =
      (.ok c, a2)) :
    ∃ e, c = 0 :: e ++ [0] ∧ e.Perm s1 := by
  unfold SolveurTSP.croiser at h
  obtain ⟨debut, a1, hdeb, h⟩ := mr_bind_inv h
  obtain ⟨fin, a3, hfin, h⟩ := mr_bind_inv h
  obtain ⟨rempli, a4, hremp, h⟩ := mr_bind_inv h
  have hq1 : (((0 : ℤ) :: s1 ++ [0]).drop 1).dropLast = s1 := by
    rw [List.cons_append, List.drop_one, List.tail_cons, List.dropLast_concat]
  have hq2 : (((0 : ℤ) :: s2 ++ [0]).drop 1).dropLast = s2 := by
    rw [List.cons_append, List.drop_one, List.tail_cons, List.dropLast_concat]
  rw [hq1, hq2, mr_deExcept_eval, Prod.mk.injEq] at hremp
  obtain ⟨hre, _⟩ := hremp
  cases hval : SolveurTSP.valeursToutes rempli.1 with
  | none =>
    rw [hval] at h
    dsimp only at h
    rw [mr_lever_eval] at h
    simp at h
  | some enfant =>
    rw [hval] at h
    dsimp only at h
    rw [mr_pure_eval, Prod.mk.injEq] at h
    obtain ⟨h1, _⟩ := h
    injection h1 with h1
    exact ⟨enfant, h1.symm,
      croiser_coeur s1 s2 hnd hperm debut.toNat fin.toNat rempli enfant hre hval⟩

/-- C10: for parent tours that start and end at the depot and whose interiors
are permutations of the same nodup set of at least two non-depot sites, every
successful output of the order crossover `croiser` is again a depot-wrapped
tour whose interior is a permutation of that same site set (so no `None`
placeholder survives in a returned child), and every successful output of
`muter` on such a tour preserves the same depot-wrapped-permutation shape. -/
theorem C10_croisement_mutation_forme (s1 s2 : List ℤ) (hnd : s1.Nodup)
    (hperm : s2.Perm s1) (hlen : 2 ≤ s1.length) (h0 : (0 : ℤ) ∉ s1)
    (tm : ℚ) (a b : Alea) :
    (∀ (c : List ℤ) (a2 : Alea),
      (SolveurTSP.croiser ((0 : ℤ) :: s1 ++ [0]) ((0 : ℤ) :: s2 ++ [0])) a =
        (.ok c, a2) →
      ∃ e, c = 0 :: e ++ [0] ∧ e.Perm s1) ∧
    (∀ (m : List ℤ) (b2 : Alea),
      (SolveurTSP.muter tm ((0 : ℤ) :: s1 ++ [0])) b = (.ok m, b2) →
      ∃ e, m = 0 :: e ++ [0] ∧ e.Perm s1) :=
  ⟨fun c a2 h => croiser_forme s1 s2 hnd hperm a a2 c h,
   fun m b2 h => muter_forme s1 tm b b2 m h⟩

/-- Witness for C10 on the parents [0, 1, 2, 0] and [0, 2, 1, 0] with the
all-zero random stream: the crossover child is [0, 1, 2, 0] and the mutant
(swap strategy) is [0, 2, 1, 0], both depot-wrapped permutations of {1, 2}. -/
theorem C10_croisement_mutation_forme_temoin :
    (∃ e, ([0, 1, 2, 0] : List ℤ) = 0 :: e ++ [0] ∧ e.Perm [1, 2]) ∧
    (∃ e, ([0, 2, 1, 0] : List ℤ) = 0 :: e ++ [0] ∧ e.Perm [1, 2]) :=
  ⟨(C10_croisement_mutation_forme [1, 2] [2, 1] (by decide) (by decide)
      (by decide) (by decide) 1 aleaZero aleaZero).1 [0, 1, 2, 0]
      ⟨fun _ => 0, 2⟩ (by with_unfolding_all rfl),
   (C10_croisement_mutation_forme [1, 2] [2, 1] (by decide) (by decide)
      (by decide) (by decide) 1 aleaZero aleaZero).2 [0, 2, 1, 0]
      ⟨fun _ => 0, 4⟩ (by with_unfolding_all rfl)⟩
